import Mathlib

/-!
Verification of the lbbs bulletin-board server core against its
natural-language specification.  The definitions below are shallow
embeddings of the C source (src/bbs/node.c, src/nets/net_irc.c,
src/nets/net_ssh.c): pure data is modelled by Lean structures, the
global registry and IRC state by explicit state passing, and side
effects (signals, ioctl calls, socket closes) by explicit action lists.
Machine integers are modelled by Nat/Int; none of the modelled
arithmetic can overflow in the ranges the source exercises.
-/

namespace LBBS

/-! ## Node model (struct bbs_node, src/bbs/node.c)

Only the fields the verified operations read or write are modelled.
`userPresent` stands for `node->user != NULL`, `ptythreadPresent` for
`node->ptythread != 0`. -/

structure BbsNode where
  id : Nat
  fd : Int
  rfd : Int
  wfd : Int
  amaster : Int
  slavefd : Int
  spyfd : Int
  spyfdin : Int
  userPresent : Bool
  active : Bool
  created : Int
  echo : Bool
  buffered : Bool
  ansi : Bool
  childpid : Nat
  cols : Nat
  rows : Nat
  inmenu : Bool
  spy : Bool
  skipjoin : Bool
  ptythreadPresent : Bool
deriving DecidableEq, Repr

/-- Fields of a freshly calloc-ed and initialised node, exactly as
`__bbs_node_request` fills them in (node.c): rfd = wfd = fd, PTY and spy
descriptors -1, no user, active, canonical mode with echo, ANSI assumed. -/
def newNode (nid : Nat) (fd : Int) (now : Int) : BbsNode :=
  { id := nid, fd := fd, rfd := fd, wfd := fd, amaster := -1, slavefd := -1,
    spyfd := -1, spyfdin := -1, userPresent := false, active := true,
    created := now, echo := true, buffered := true, ansi := true,
    childpid := 0, cols := 0, rows := 0, inmenu := false, spy := false,
    skipjoin := false, ptythreadPresent := false }

/-! ## Node registry (src/bbs/node.c)

The registry is the RWLIST `nodes`, kept sorted by ascending id, together
with the globals `shutting_down`, `lifetime_nodes` and the configured
`maxnodes`.  Every registry operation in the source runs under the
list's writer lock, so each one is modelled as an atomic state
transition. -/

structure NodesState where
  nodes : List BbsNode
  shutting_down : Bool
  lifetime_nodes : Nat
  maxnodes : Nat
deriving DecidableEq, Repr

def initRegistry (maxn : Nat) : NodesState :=
  { nodes := [], shutting_down := false, lifetime_nodes := 0, maxnodes := maxn }

/-- The id-search part of the `RWLIST_TRAVERSE` loop in
`__bbs_node_request`: starting from candidate `k`, consume nodes whose
id equals the running candidate and bump it; the first gap stops the
search (the `keeplooking` flag in the source). -/
def scanIds : List Nat → Nat → Nat
  | [], k => k
  | i :: rest, k => if i = k then scanIds rest (k + 1) else k

/-- The insertion position chosen by the same loop: the new node goes
after `prev`, the last node consumed while `keeplooking` was set, or at
the head when none was consumed (`RWLIST_INSERT_AFTER` /
`RWLIST_INSERT_HEAD` in the source). -/
def insertNodeSorted (newn : BbsNode) : List BbsNode → Nat → List BbsNode
  | [], _ => [newn]
  | n :: rest, k => if n.id = k then n :: insertNodeSorted newn rest (k + 1)
                    else newn :: n :: rest

/-- Shallow embedding of `__bbs_node_request` (node.c).  Returns the
allocated node (if any) and the new registry state.  The source rejects,
in this order: descriptors ≤ 2 (stdin/stdout/stderr), an active
shutdown, and a full registry (`count >= bbs_maxnodes()`); otherwise it
allocates the smallest unused positive id and inserts at the sorted
position, bumping `lifetime_nodes`. -/
def __bbs_node_request (st : NodesState) (fd : Int) (now : Int) :
    Option BbsNode × NodesState :=
  if fd ≤ 2 then (none, st)
  else if st.shutting_down then (none, st)
  else if st.maxnodes ≤ st.nodes.length then (none, st)
  else
    (some (newNode (scanIds (st.nodes.map BbsNode.id) 1) fd now),
      { st with
          nodes := insertNodeSorted
            (newNode (scanIds (st.nodes.map BbsNode.id) 1) fd now) st.nodes 1,
          lifetime_nodes := st.lifetime_nodes + 1 })

/-- The `RWLIST_REMOVE` performed by `bbs_node_unlink` (node.c): remove
the first (unique) node with the given id from the registry.  The
subsequent `node_shutdown`/`node_free` do not touch the registry. -/
def removeNodeById : List BbsNode → Nat → List BbsNode
  | [], _ => []
  | n :: rest, i => if n.id = i then rest else n :: removeNodeById rest i

def bbs_node_unlink (st : NodesState) (nid : Nat) : NodesState :=
  { st with nodes := removeNodeById st.nodes nid }

/-- `bbs_node_shutdown_all` (node.c): set the `shutting_down` flag, then
`RWLIST_REMOVE_ALL` drains every node from the registry. -/
def bbs_node_shutdown_all (st : NodesState) (shutdown : Bool) : NodesState :=
  { st with nodes := [], shutting_down := shutdown }

/-- Registry operations reachable from outside: request and unlink. -/
inductive RegOp
  | request (fd : Int) (now : Int)
  | unlink (nid : Nat)
deriving DecidableEq, Repr

def applyRegOp (st : NodesState) : RegOp → NodesState
  | .request fd now => (__bbs_node_request st fd now).2
  | .unlink nid => bbs_node_unlink st nid

def runOps (ops : List RegOp) (st : NodesState) : NodesState :=
  ops.foldl applyRegOp st

/-! ## Sortedness of the registry -/

/-- Ids are all ≥ k and strictly increasing. -/
def idsSortedFrom : Nat → List Nat → Prop
  | _, [] => True
  | k, i :: rest => k ≤ i ∧ idsSortedFrom (i + 1) rest

instance idsSortedFromDecidable : (k : Nat) → (l : List Nat) →
    Decidable (idsSortedFrom k l)
  | _, [] => isTrue trivial
  | k, i :: rest =>
    @instDecidableAnd _ _ (Nat.decLe k i) (idsSortedFromDecidable (i + 1) rest)

/-- The registry invariant from the spec: the list of live nodes is kept
sorted by id, ids positive. -/
def registryOrdered (l : List BbsNode) : Prop :=
  idsSortedFrom 1 (l.map BbsNode.id)

theorem idsSortedFrom_mono {k k' : Nat} (h : k' ≤ k) :
    ∀ {l : List Nat}, idsSortedFrom k l → idsSortedFrom k' l
  | [], _ => trivial
  | _ :: _, hs => ⟨le_trans h hs.1, hs.2⟩

theorem idsSortedFrom_le {k : Nat} :
    ∀ {l : List Nat}, idsSortedFrom k l → ∀ j ∈ l, k ≤ j := by
  intro l
  induction l generalizing k with
  | nil => intro _ j hj; cases hj
  | cons i rest ih =>
    intro hs j hj
    rcases List.mem_cons.mp hj with rfl | hj'
    · exact hs.1
    · exact le_trans (le_trans hs.1 (Nat.le_succ i)) (ih hs.2 j hj')

theorem scanIds_ge : ∀ (l : List Nat) (k : Nat), k ≤ scanIds l k := by
  intro l
  induction l with
  | nil => intro k; simp [scanIds]
  | cons i rest ih =>
    intro k
    by_cases h : i = k
    · rw [scanIds, if_pos h]
      exact le_trans (Nat.le_succ k) (ih (k + 1))
    · rw [scanIds, if_neg h]

theorem scanIds_not_mem :
    ∀ (l : List Nat) (k : Nat), idsSortedFrom k l → scanIds l k ∉ l := by
  intro l
  induction l with
  | nil => intro k _ h; cases h
  | cons i rest ih =>
    intro k hs hmem
    by_cases h : i = k
    · rw [scanIds, if_pos h] at hmem
      rcases List.mem_cons.mp hmem with heq | hmem'
      · have : k + 1 ≤ scanIds rest (k + 1) := scanIds_ge rest (k + 1)
        omega
      · exact ih (k + 1) (h ▸ hs.2) hmem'
    · rw [scanIds, if_neg h] at hmem
      rcases List.mem_cons.mp hmem with heq | hmem'
      · exact h heq.symm
      · have hk : i + 1 ≤ k := by
          have := idsSortedFrom_le hs.2 k hmem'
          omega
        have := hs.1
        omega

theorem scanIds_below_mem :
    ∀ (l : List Nat) (k : Nat), idsSortedFrom k l →
      ∀ j, k ≤ j → j < scanIds l k → j ∈ l := by
  intro l
  induction l with
  | nil => intro k _ j hkj hlt; rw [scanIds] at hlt; omega
  | cons i rest ih =>
    intro k hs j hkj hlt
    by_cases h : i = k
    · rw [scanIds, if_pos h] at hlt
      by_cases hjk : j = k
      · exact List.mem_cons.mpr (Or.inl (hjk.trans h.symm))
      · subst h
        exact List.mem_cons.mpr (Or.inr (ih (i + 1) hs.2 j (by omega) hlt))
    · rw [scanIds, if_neg h] at hlt
      omega

theorem insertNodeSorted_length (newn : BbsNode) :
    ∀ (l : List BbsNode) (k : Nat),
      (insertNodeSorted newn l k).length = l.length + 1 := by
  intro l
  induction l with
  | nil => intro k; rfl
  | cons n rest ih =>
    intro k
    by_cases h : n.id = k
    · rw [insertNodeSorted, if_pos h]
      simp [ih (k + 1)]
    · rw [insertNodeSorted, if_neg h]
      rfl

theorem insertNodeSorted_sorted (newn : BbsNode) :
    ∀ (l : List BbsNode) (k : Nat),
      idsSortedFrom k (l.map BbsNode.id) →
      newn.id = scanIds (l.map BbsNode.id) k →
      idsSortedFrom k ((insertNodeSorted newn l k).map BbsNode.id) := by
  intro l
  induction l with
  | nil =>
    intro k _ hid
    rw [List.map_nil, scanIds] at hid
    exact ⟨le_of_eq hid.symm, trivial⟩
  | cons n rest ih =>
    intro k hs hid
    rw [List.map_cons] at hs
    by_cases h : n.id = k
    · rw [List.map_cons, scanIds, if_pos h] at hid
      rw [insertNodeSorted, if_pos h, List.map_cons]
      refine ⟨hs.1, ?_⟩
      have := ih (k + 1) (h ▸ hs.2) hid
      exact h ▸ this
    · rw [List.map_cons, scanIds, if_neg h] at hid
      rw [insertNodeSorted, if_neg h, List.map_cons, List.map_cons]
      refine ⟨le_of_eq hid.symm, ?_⟩
      refine ⟨?_, hs.2⟩
      have h1 := hs.1
      omega

theorem removeNodeById_sorted :
    ∀ (l : List BbsNode) (k : Nat) (i : Nat),
      idsSortedFrom k (l.map BbsNode.id) →
      idsSortedFrom k ((removeNodeById l i).map BbsNode.id) := by
  intro l
  induction l with
  | nil => intro k i _; trivial
  | cons n rest ih =>
    intro k i hs
    rw [List.map_cons] at hs
    by_cases h : n.id = i
    · rw [removeNodeById, if_pos h]
      exact idsSortedFrom_mono (le_trans hs.1 (Nat.le_succ n.id)) hs.2
    · rw [removeNodeById, if_neg h, List.map_cons]
      exact ⟨hs.1, ih (n.id + 1) i hs.2⟩

theorem request_preserves_ordered (st : NodesState) (fd now : Int)
    (h : registryOrdered st.nodes) :
    registryOrdered (__bbs_node_request st fd now).2.nodes := by
  unfold __bbs_node_request
  split
  · exact h
  · split
    · exact h
    · split
      · exact h
      · exact insertNodeSorted_sorted _ st.nodes 1 h rfl

theorem applyRegOp_preserves_ordered (st : NodesState) (op : RegOp)
    (h : registryOrdered st.nodes) :
    registryOrdered (applyRegOp st op).nodes := by
  cases op with
  | request fd now => exact request_preserves_ordered st fd now h
  | unlink nid => exact removeNodeById_sorted st.nodes 1 nid h

theorem runOps_preserves_ordered (ops : List RegOp) :
    ∀ st : NodesState, registryOrdered st.nodes →
      registryOrdered (runOps ops st).nodes := by
  induction ops with
  | nil => intro st h; exact h
  | cons op rest ih =>
    intro st h
    rw [runOps, List.foldl_cons]
    exact ih (applyRegOp st op) (applyRegOp_preserves_ordered st op h)

theorem runOps_ordered (ops : List RegOp) (maxn : Nat) :
    registryOrdered (runOps ops (initRegistry maxn)).nodes :=
  runOps_preserves_ordered ops (initRegistry maxn) trivial

/-- The id `m` is the smallest positive integer not used by any live
node (the mex over the registry's id set, 1-indexed). -/
def isSmallestUnusedId (m : Nat) (ids : List Nat) : Prop :=
  1 ≤ m ∧ m ∉ ids ∧ ∀ j, j < m → 1 ≤ j → j ∈ ids

instance (m : Nat) (ids : List Nat) : Decidable (isSmallestUnusedId m ids) := by
  unfold isSmallestUnusedId
  infer_instance

theorem scanIds_smallest (l : List Nat) (h : idsSortedFrom 1 l) :
    isSmallestUnusedId (scanIds l 1) l :=
  ⟨scanIds_ge l 1, scanIds_not_mem l 1 h,
    fun j hj h1 => scanIds_below_mem l 1 h j h1 hj⟩

/-- C1: after any sequence of request/unlink operations starting from an
empty registry, a successful request assigns the smallest positive
integer id not used by any live node, and the registry stays sorted in
increasing id order. -/
theorem request_assigns_smallest_id (ops : List RegOp) (maxn : Nat)
    (fd now : Int) (node : BbsNode) (st' : NodesState)
    (h : __bbs_node_request (runOps ops (initRegistry maxn)) fd now
          = (some node, st')) :
    isSmallestUnusedId node.id
      ((runOps ops (initRegistry maxn)).nodes.map BbsNode.id) ∧
    registryOrdered st'.nodes := by
  have hord := runOps_ordered ops maxn
  revert h
  unfold __bbs_node_request
  split
  · intro h; exact absurd (congrArg Prod.fst h) (by simp)
  · split
    · intro h; exact absurd (congrArg Prod.fst h) (by simp)
    · split
      · intro h; exact absurd (congrArg Prod.fst h) (by simp)
      · intro h
        have hnode : node = newNode
            (scanIds ((runOps ops (initRegistry maxn)).nodes.map BbsNode.id) 1)
            fd now := by
          have := congrArg Prod.fst h
          simpa using this.symm
        have hst : st'.nodes = insertNodeSorted
            (newNode
              (scanIds ((runOps ops (initRegistry maxn)).nodes.map BbsNode.id) 1)
              fd now)
            (runOps ops (initRegistry maxn)).nodes 1 := by
          have := congrArg Prod.snd h
          exact (congrArg NodesState.nodes this).symm
        constructor
        · rw [hnode]
          exact scanIds_smallest _ hord
        · rw [registryOrdered, hst]
          exact insertNodeSorted_sorted _ _ 1 hord rfl

/-- Witness for C1 at a concrete input: from the empty registry, a
request on descriptor 3 is assigned id 1 and the result is sorted. -/
theorem request_assigns_smallest_id_witness :
    isSmallestUnusedId (newNode 1 3 0).id
      ((runOps [] (initRegistry 64)).nodes.map BbsNode.id) ∧
    registryOrdered
      (NodesState.nodes ⟨[newNode 1 3 0], false, 1, 64⟩) :=
  request_assigns_smallest_id [] 64 3 0 (newNode 1 3 0)
    ⟨[newNode 1 3 0], false, 1, 64⟩ (by decide)

/-- C2 counterexample: with an empty registry (far below capacity) and
no shutdown in progress, a request on descriptor 0 still returns no
node, because `__bbs_node_request` also rejects descriptors ≤ 2; the
claim as stated says any such call returns a newly allocated node. -/
theorem request_low_fd_counterexample :
    (initRegistry 64).nodes.length < (initRegistry 64).maxnodes ∧
    (initRegistry 64).shutting_down = false ∧
    (__bbs_node_request (initRegistry 64) 0 0).1 = none ∧
    (__bbs_node_request (initRegistry 64) 0 0).2 = initRegistry 64 := by
  decide

/-- C2 (amended): a request during shutdown or at capacity fails and
leaves the registry unchanged, as does a request whose descriptor is ≤ 2
(stdin/stdout/stderr); for a descriptor > 2, below capacity and with no
shutdown in progress, a node is allocated and the live count grows by
one; the live count never exceeds maxnodes. -/
theorem request_capacity_and_shutdown (st : NodesState) (fd now : Int) :
    (st.shutting_down = true → __bbs_node_request st fd now = (none, st)) ∧
    (st.maxnodes ≤ st.nodes.length →
      __bbs_node_request st fd now = (none, st)) ∧
    (fd ≤ 2 → __bbs_node_request st fd now = (none, st)) ∧
    (2 < fd → st.shutting_down = false → st.nodes.length < st.maxnodes →
      (∃ nd, (__bbs_node_request st fd now).1 = some nd) ∧
      (__bbs_node_request st fd now).2.nodes.length = st.nodes.length + 1) ∧
    (st.nodes.length ≤ st.maxnodes →
      (__bbs_node_request st fd now).2.nodes.length ≤ st.maxnodes) := by
  refine ⟨?_, ?_, ?_, ?_, ?_⟩
  · intro hsd
    simp [__bbs_node_request, hsd]
  · intro hcap
    simp [__bbs_node_request, hcap]
  · intro hfd
    simp [__bbs_node_request, hfd]
  · intro hfd hsd hcap
    unfold __bbs_node_request
    rw [if_neg (by omega), if_neg (by simp [hsd]), if_neg (by omega)]
    exact ⟨⟨_, rfl⟩, by simp [insertNodeSorted_length]⟩
  · intro hle
    unfold __bbs_node_request
    split
    · exact hle
    · split
      · exact hle
      · split
        · exact hle
        · simp only
          rw [insertNodeSorted_length]
          omega

/-- Witness for C2 (amended), applying the theorem at concrete states:
a shutting-down registry rejects, a full registry rejects, and an empty
registry with a valid descriptor allocates. -/
theorem request_capacity_and_shutdown_witness :
    __bbs_node_request ⟨[], true, 0, 64⟩ 5 0 = (none, ⟨[], true, 0, 64⟩) ∧
    __bbs_node_request ⟨[newNode 1 3 0], false, 1, 1⟩ 5 0
      = (none, ⟨[newNode 1 3 0], false, 1, 1⟩) ∧
    __bbs_node_request ⟨[], false, 0, 64⟩ 2 0 = (none, ⟨[], false, 0, 64⟩) ∧
    ((∃ nd, (__bbs_node_request ⟨[], false, 0, 64⟩ 5 0).1 = some nd) ∧
      (__bbs_node_request ⟨[], false, 0, 64⟩ 5 0).2.nodes.length = 0 + 1) ∧
    (__bbs_node_request ⟨[], false, 0, 64⟩ 5 0).2.nodes.length ≤ 64 :=
  ⟨(request_capacity_and_shutdown ⟨[], true, 0, 64⟩ 5 0).1 rfl,
   (request_capacity_and_shutdown ⟨[newNode 1 3 0], false, 1, 1⟩ 5 0).2.1
     (by decide),
   (request_capacity_and_shutdown ⟨[], false, 0, 64⟩ 2 0).2.2.1 (by decide),
   by
     have h4 := (request_capacity_and_shutdown ⟨[], false, 0, 64⟩ 5 0).2.2.2.1
       (by decide) rfl (by decide)
     simpa using h4,
   (request_capacity_and_shutdown ⟨[], false, 0, 64⟩ 5 0).2.2.2.2
     (by decide)⟩

/-! ## Node shutdown (node_shutdown, src/bbs/node.c)

The private shutdown routine is modelled as a pure function from the
node (plus the global `shutting_down` flag and the current time) to the
updated node and the ordered list of externally visible actions it
performs.  The whole body runs under the node lock, so it is one atomic
step. -/

inductive ShutdownAction
  | killChild (pid : Nat)
  | logout
  | bufferInput
  | colorReset
  | closeMaster
  | closeSlave
  | joinPtyThread
  | spyNotify
  | closeFd
  | shortSessionEvent
  | joinHandlerThread
deriving DecidableEq, Repr

/-- Shallow embedding of `node_shutdown` (node.c).  It returns
immediately when the node is already inactive; otherwise it flips
`active`, kills the child if any, logs the user out if present, restores
the terminal when the slave is still open, closes PTY descriptors and
joins the relay thread, closes the socket, emits a short-session event
for brief unauthenticated sessions outside a global shutdown, and, when
`unique` is false, joins the handler thread unless `skipjoin` is set. -/
def node_shutdown (node : BbsNode) (unique : Bool) (shutting_down : Bool)
    (now : Int) : BbsNode × List ShutdownAction :=
  if node.active = false then (node, [])
  else
    ({ node with
        active := false,
        userPresent := false,
        buffered := if node.slavefd ≠ -1 then true else node.buffered,
        echo := if node.slavefd ≠ -1 then true else node.echo,
        amaster := if node.ptythreadPresent ∧ node.amaster ≠ -1 then -1
                   else node.amaster,
        slavefd := if node.ptythreadPresent ∧ node.slavefd ≠ -1 then -1
                   else node.slavefd,
        spy := if node.ptythreadPresent then false else node.spy,
        fd := if node.fd ≠ 0 then -1 else node.fd },
      (if node.childpid ≠ 0 then [ShutdownAction.killChild node.childpid]
       else []) ++
      (if node.userPresent then [ShutdownAction.logout] else []) ++
      (if node.slavefd ≠ -1 then
        [ShutdownAction.bufferInput, ShutdownAction.colorReset] else []) ++
      (if node.ptythreadPresent then
        (if node.amaster ≠ -1 then [ShutdownAction.closeMaster] else []) ++
        (if node.slavefd ≠ -1 then [ShutdownAction.closeSlave] else []) ++
        [ShutdownAction.joinPtyThread] ++
        (if node.spy then [ShutdownAction.spyNotify] else [])
       else []) ++
      (if node.fd ≠ 0 then [ShutdownAction.closeFd] else []) ++
      (if node.userPresent = false ∧ shutting_down = false ∧
          now < node.created + 5 then [ShutdownAction.shortSessionEvent]
       else []) ++
      (if unique = false then
        (if node.skipjoin then [] else [ShutdownAction.joinHandlerThread])
       else []))

theorem node_shutdown_inactive (node : BbsNode) (u sd : Bool) (now : Int)
    (h : node.active = false) : node_shutdown node u sd now = (node, []) := by
  unfold node_shutdown
  rw [if_pos h]

theorem node_shutdown_active_false (node : BbsNode) (u sd : Bool)
    (now : Int) : (node_shutdown node u sd now).1.active = false := by
  unfold node_shutdown
  by_cases h : node.active = false
  · rw [if_pos h]; exact h
  · rw [if_neg h]

/-- C5: shutdown is idempotent.  It returns immediately on an inactive
node, doing nothing; and a second shutdown of any node after a first is
a no-op (same state, no child kill, logout, terminal restore or
descriptor close is performed again). -/
theorem node_shutdown_idempotent (node : BbsNode) (unique sd : Bool)
    (now : Int) (unique' sd' : Bool) (now' : Int) :
    (node.active = false → node_shutdown node unique sd now = (node, [])) ∧
    node_shutdown (node_shutdown node unique sd now).1 unique' sd' now'
      = ((node_shutdown node unique sd now).1, []) :=
  ⟨fun h => node_shutdown_inactive node unique sd now h,
   node_shutdown_inactive _ unique' sd' now'
     (node_shutdown_active_false node unique sd now)⟩

/-- Witness for C5: a concrete inactive node is untouched, and a second
shutdown of a concrete active node performs no actions. -/
theorem node_shutdown_idempotent_witness :
    node_shutdown { newNode 1 3 0 with active := false } true false 0
      = ({ newNode 1 3 0 with active := false }, []) ∧
    node_shutdown (node_shutdown (newNode 1 3 0) false false 10).1
        false false 10
      = ((node_shutdown (newNode 1 3 0) false false 10).1, []) :=
  ⟨(node_shutdown_idempotent { newNode 1 3 0 with active := false }
      true false 0 true false 0).1 rfl,
   (node_shutdown_idempotent (newNode 1 3 0) false false 10
      false false 10).2⟩

/-! ## Window-size update (bbs_node_update_winsize, src/bbs/node.c) -/

inductive WinsizeAction
  | setWinsize (rows cols : Nat)
  | sigwinchChild (pid : Nat)
  | menuRefreshByte
  | bufferedWarning
deriving DecidableEq, Repr

/-- The `rows >= 0 && cols >= 0` store at the top of
`bbs_node_update_winsize`: negative values mean "not supplied". -/
def storeWinsize (node : BbsNode) (cols rows : Int) : BbsNode :=
  if 0 ≤ rows ∧ 0 ≤ cols then
    { node with cols := cols.toNat, rows := rows.toNat }
  else node

/-- The action part of `bbs_node_update_winsize` after the store:
nothing without a PTY; with a child, TIOCSWINSZ on the master then
SIGWINCH to the child; with no child but a menu on display whose
geometry shrank (fewer columns, or fewer rows with more columns), a
single menu-refresh byte is written to the master when input is
unbuffered (the source logs an error instead when it is buffered). -/
def winsizeActions (node : BbsNode) (oldcols oldrows : Nat) :
    List WinsizeAction :=
  if node.amaster = -1 then []
  else if node.childpid ≠ 0 then
    [WinsizeAction.setWinsize node.rows node.cols,
     WinsizeAction.sigwinchChild node.childpid]
  else if node.inmenu then
    if node.cols < oldcols ∨ (node.rows < oldrows ∧ oldcols < node.cols) then
      if node.buffered = false then [WinsizeAction.menuRefreshByte]
      else [WinsizeAction.bufferedWarning]
    else []
  else []

def bbs_node_update_winsize (node : BbsNode) (cols rows : Int) :
    BbsNode × List WinsizeAction :=
  (storeWinsize node cols rows,
   winsizeActions (storeWinsize node cols rows) node.cols node.rows)

/-- C9 counterexample: a node with a PTY allocated (master fd 5) but no
child process and no menu gets no TIOCSWINSZ at all on a resize; the
claim as stated says the window-size set is performed whenever a PTY is
allocated. -/
theorem winsize_no_tiocswinsz_counterexample :
    ({ newNode 1 3 0 with amaster := 5, cols := 80, rows := 24 } :
        BbsNode).amaster ≠ -1 ∧
    (bbs_node_update_winsize
      { newNode 1 3 0 with amaster := 5, cols := 80, rows := 24 }
      60 24).2 = [] := by
  decide

theorem storeWinsize_amaster (node : BbsNode) (cols rows : Int) :
    (storeWinsize node cols rows).amaster = node.amaster := by
  unfold storeWinsize
  split <;> rfl

theorem storeWinsize_childpid (node : BbsNode) (cols rows : Int) :
    (storeWinsize node cols rows).childpid = node.childpid := by
  unfold storeWinsize
  split <;> rfl

theorem storeWinsize_inmenu (node : BbsNode) (cols rows : Int) :
    (storeWinsize node cols rows).inmenu = node.inmenu := by
  unfold storeWinsize
  split <;> rfl

theorem storeWinsize_buffered (node : BbsNode) (cols rows : Int) :
    (storeWinsize node cols rows).buffered = node.buffered := by
  unfold storeWinsize
  split <;> rfl

/-- C9 (amended): supplied cols and rows are stored; without a PTY
nothing further happens; with a PTY and a child process the window-size
set is performed on the master followed by SIGWINCH to the child; with
no child neither a TIOCSWINSZ nor a SIGWINCH ever happens; and with no
child, a displayed menu that shrank in the relevant dimension and
unbuffered input, exactly one menu-refresh byte is written. -/
theorem update_winsize_effects (node : BbsNode) (cols rows : Int) :
    (0 ≤ rows → 0 ≤ cols →
      (bbs_node_update_winsize node cols rows).1
        = { node with cols := cols.toNat, rows := rows.toNat }) ∧
    (node.amaster = -1 → (bbs_node_update_winsize node cols rows).2 = []) ∧
    (node.amaster ≠ -1 → node.childpid ≠ 0 →
      (bbs_node_update_winsize node cols rows).2
        = [WinsizeAction.setWinsize (storeWinsize node cols rows).rows
            (storeWinsize node cols rows).cols,
           WinsizeAction.sigwinchChild node.childpid]) ∧
    (node.childpid = 0 → ∀ r c,
      WinsizeAction.setWinsize r c ∉ (bbs_node_update_winsize node cols rows).2) ∧
    (node.childpid = 0 → ∀ p,
      WinsizeAction.sigwinchChild p ∉ (bbs_node_update_winsize node cols rows).2) ∧
    (node.amaster ≠ -1 → node.childpid = 0 → node.inmenu = true →
      node.buffered = false →
      ((storeWinsize node cols rows).cols < node.cols ∨
        ((storeWinsize node cols rows).rows < node.rows ∧
          node.cols < (storeWinsize node cols rows).cols)) →
      (bbs_node_update_winsize node cols rows).2
        = [WinsizeAction.menuRefreshByte]) := by
  have hm := storeWinsize_amaster node cols rows
  have hc := storeWinsize_childpid node cols rows
  have hi := storeWinsize_inmenu node cols rows
  have hb := storeWinsize_buffered node cols rows
  refine ⟨?_, ?_, ?_, ?_, ?_, ?_⟩
  · intro hr hcls
    simp [bbs_node_update_winsize, storeWinsize, hr, hcls]
  · intro ha
    simp [bbs_node_update_winsize, winsizeActions, hm, ha]
  · intro ha hch
    simp [bbs_node_update_winsize, winsizeActions, hm, hc, ha, hch]
  · intro hch r c
    simp only [bbs_node_update_winsize, winsizeActions, hm, hc, hi, hb, hch]
    split
    · simp
    · rw [if_neg (by simp [hch])]
      split
      · split
        · split <;> simp
        · simp
      · simp
  · intro hch p
    simp only [bbs_node_update_winsize, winsizeActions, hm, hc, hi, hb, hch]
    split
    · simp
    · rw [if_neg (by simp [hch])]
      split
      · split
        · split <;> simp
        · simp
      · simp
  · intro ha hch hmenu hbuf hshrink
    simp only [bbs_node_update_winsize, winsizeActions, hm, hc, hi, hb]
    rw [if_neg ha, if_neg (by simp [hch]), if_pos hmenu, if_pos hshrink,
      if_pos hbuf]

/-- Witness for C9 (amended) at concrete nodes: a node without a PTY, a
node with a child, and a node in a shrinking menu. -/
theorem update_winsize_effects_witness :
    (bbs_node_update_winsize (newNode 1 3 0) 60 24).1
      = { newNode 1 3 0 with
          cols := (60 : Int).toNat,
          rows := (24 : Int).toNat } ∧
    (bbs_node_update_winsize (newNode 1 3 0) 60 24).2 = [] ∧
    (bbs_node_update_winsize
        { newNode 1 3 0 with amaster := 5, childpid := 42 } 60 24).2
      = [WinsizeAction.setWinsize
          (storeWinsize { newNode 1 3 0 with amaster := 5, childpid := 42 }
            60 24).rows
          (storeWinsize { newNode 1 3 0 with amaster := 5, childpid := 42 }
            60 24).cols,
         WinsizeAction.sigwinchChild 42] ∧
    (WinsizeAction.setWinsize 24 60 ∉
      (bbs_node_update_winsize
        { newNode 1 3 0 with amaster := 5, cols := 80, rows := 24 }
        60 24).2) ∧
    (WinsizeAction.sigwinchChild 42 ∉
      (bbs_node_update_winsize
        { newNode 1 3 0 with amaster := 5, cols := 80, rows := 24 }
        60 24).2) ∧
    (bbs_node_update_winsize
        { newNode 1 3 0 with
          amaster := 5, cols := 80, rows := 24,
          inmenu := true, buffered := false } 60 24).2
      = [WinsizeAction.menuRefreshByte] :=
  ⟨(update_winsize_effects (newNode 1 3 0) 60 24).1 (by decide) (by decide),
   (update_winsize_effects (newNode 1 3 0) 60 24).2.1 rfl,
   (update_winsize_effects
      { newNode 1 3 0 with amaster := 5, childpid := 42 } 60 24).2.2.1
     (by decide) (by decide),
   (update_winsize_effects
      { newNode 1 3 0 with amaster := 5, cols := 80, rows := 24 }
      60 24).2.2.2.1 rfl 24 60,
   (update_winsize_effects
      { newNode 1 3 0 with amaster := 5, cols := 80, rows := 24 }
      60 24).2.2.2.2.1 rfl 42,
   (update_winsize_effects
      { newNode 1 3 0 with
        amaster := 5, cols := 80, rows := 24,
        inmenu := true, buffered := false } 60 24).2.2.2.2.2 (by decide)
     rfl rfl rfl (by decide)⟩

/-! ## Password hygiene (authenticate in node.c, do_sasl_auth in net_irc.c)

The 64-byte stack buffer `password` in `authenticate` is tracked
abstractly: it starts as uninitialised stack memory, holds a password
once `bbs_node_readline` stores one, and becomes zeroed when
`bbs_memzero` overwrites it. -/

inductive PwBuf
  | untouched
  | holds (pw : String)
  | zeroed
deriving DecidableEq, Repr

def PwBuf.holdsPassword : PwBuf → Bool
  | .holds _ => true
  | _ => false

/-- `bbs_memzero(password, sizeof(password))`: whatever the buffer held,
it is zeroes afterwards. -/
def bbs_memzero (_ : PwBuf) : PwBuf := PwBuf.zeroed

/-- The external inputs consumed by one iteration of the `authenticate`
loop: the username line (none when `bbs_node_readline` fails), the
result of `bbs_user_register` for "New", the outcomes of the guest-info
prompts and guest authentication for "Guest", and for a normal username
the echo toggles, the password line and the auth backend's verdict. -/
structure AuthAttempt where
  usernameRead : Option String
  regResult : Int
  guestRespOk : Bool
  guestAuthOk : Bool
  echoOffOk : Bool
  pwRead : Option String
  authOk : Bool
  echoOnOk : Bool
deriving DecidableEq, Repr

inductive AttemptStep
  | ret (code : Int)
  | success
  | again
deriving DecidableEq, Repr

/-- Case-insensitive keyword comparison (`strcasecmp` in the source). -/
def strcaseeq (a b : String) : Bool := a.toLower = b.toLower

/-- One iteration of the attempt loop in `authenticate` (node.c),
returning how the iteration ends together with the state of the
password buffer.  In the normal-username branch the password is read
into the buffer, handed to `bbs_authenticate`, and the buffer is zeroed
by `bbs_memzero` before either the early `NEG_RETURN` on re-enabling
echo, the success break, or the retry. -/
def auth_attempt (allow_guest guest_ask_info : Bool) (buf : PwBuf)
    (a : AuthAttempt) : AttemptStep × PwBuf :=
  match a.usernameRead with
  | none => (.ret (-1), buf)
  | some username =>
    if strcaseeq username "Quit" ∨ strcaseeq username "Exit" then
      (.ret (-1), buf)
    else if strcaseeq username "New" then
      if a.regResult = 0 then (.success, buf) else (.ret (-1), buf)
    else if strcaseeq username "Guest" then
      if allow_guest then
        if guest_ask_info then
          if a.guestRespOk = false then (.ret (-1), buf)
          else if a.guestAuthOk = false then (.ret (-1), buf)
          else (.success, buf)
        else if a.guestAuthOk = false then (.ret (-1), buf)
        else (.success, buf)
      else (.again, buf)
    else
      if a.echoOffOk = false then (.ret (-1), buf)
      else
        match a.pwRead with
        | none => (.ret (-1), buf)
        | some pw =>
          let bufWithPw := PwBuf.holds pw
          let bufZeroed := bbs_memzero bufWithPw
          if a.echoOnOk = false then (.ret (-1), bufZeroed)
          else if a.authOk then (.success, bufZeroed)
          else (.again, bufZeroed)

/-- The `for (attempts = 0; attempts < MAX_AUTH_ATTEMPTS; attempts++)`
loop of `authenticate`: fuel counts the remaining attempts (3 at entry);
an empty input stream behaves like a failed readline. -/
def authenticate_loop (allow_guest guest_ask_info : Bool) :
    Nat → PwBuf → List AuthAttempt → Int × PwBuf
  | 0, buf, _ => (-1, buf)
  | _ + 1, buf, [] => (-1, buf)
  | fuel + 1, buf, a :: rest =>
    match auth_attempt allow_guest guest_ask_info buf a with
    | (.ret c, buf') => (c, buf')
    | (.success, buf') => (0, buf')
    | (.again, buf') => authenticate_loop allow_guest guest_ask_info fuel buf' rest

def authenticate (allow_guest guest_ask_info : Bool)
    (attempts : List AuthAttempt) : Int × PwBuf :=
  authenticate_loop allow_guest guest_ask_info 3 PwBuf.untouched attempts

theorem auth_attempt_buf (allow_guest guest_ask_info : Bool) (buf : PwBuf)
    (a : AuthAttempt) :
    (auth_attempt allow_guest guest_ask_info buf a).2 = buf ∨
    (auth_attempt allow_guest guest_ask_info buf a).2 = PwBuf.zeroed := by
  unfold auth_attempt
  rcases a.usernameRead with _ | username
  · exact Or.inl rfl
  · simp only
    split
    · exact Or.inl rfl
    · split
      · split <;> exact Or.inl rfl
      · split
        · split
          · split
            · split
              · exact Or.inl rfl
              · split <;> exact Or.inl rfl
            · split
              · exact Or.inl rfl
              · exact Or.inl rfl
          · exact Or.inl rfl
        · split
          · exact Or.inl rfl
          · rcases a.pwRead with _ | pw
            · exact Or.inl rfl
            · simp only [bbs_memzero]
              split
              · exact Or.inr rfl
              · split <;> exact Or.inr rfl

theorem authenticate_loop_no_password (allow_guest guest_ask_info : Bool) :
    ∀ (fuel : Nat) (buf : PwBuf) (attempts : List AuthAttempt),
      buf.holdsPassword = false →
      ((authenticate_loop allow_guest guest_ask_info fuel buf
          attempts).2).holdsPassword = false := by
  intro fuel
  induction fuel with
  | zero => intro buf attempts h; exact h
  | succ n ih =>
    intro buf attempts h
    cases attempts with
    | nil => exact h
    | cons a rest =>
      have hstep := auth_attempt_buf allow_guest guest_ask_info buf a
      rw [authenticate_loop]
      rcases hhead : auth_attempt allow_guest guest_ask_info buf a
        with ⟨step, buf'⟩
      rw [hhead] at hstep
      have hbuf' : buf'.holdsPassword = false := by
        rcases hstep with heq | heq
        · have heq' : buf' = buf := heq
          rw [heq']; exact h
        · have heq' : buf' = PwBuf.zeroed := heq
          rw [heq']; rfl
      cases step with
      | ret c => exact hbuf'
      | success => exact hbuf'
      | again => exact ih buf' rest hbuf'

/-! ## SASL PLAIN (do_sasl_auth, net_irc.c)

The base64-decoded blob `nick NUL user NUL password` is modelled as a
byte list; `outlen` is its length.  The model starts after the
`AUTHENTICATE ` prefix check and a successful `base64_decode`. -/

/-- The NUL-terminated C string at byte offset `off` of the decoded
buffer (the `strlen`-based pointer walk in `do_sasl_auth`). -/
def cstrAt (buf : List Nat) (off : Nat) : List Nat :=
  (buf.drop off).takeWhile (fun b => decide (b ≠ 0))

structure SaslOutcome where
  res : Int
  bufAtFree : List Nat
  zeroedLen : Nat
deriving DecidableEq, Repr

/-- Shallow embedding of `do_sasl_auth` (net_irc.c) after a successful
decode: walk nickname and username, rejecting (and freeing the buffer
unzeroed) when a NUL walk runs past `outlen` or when the nickname does
not match the connection's nick; past the nickname check, run
`bbs_authenticate` and then `memset(decoded, 0, outlen)` before
`free(decoded)`, whatever the authentication verdict. -/
def do_sasl_auth (userNickname : List Nat) (decoded : List Nat)
    (authOk : Bool) : SaslOutcome :=
  let outlen := decoded.length
  let nickname := cstrAt decoded 0
  let runlen := nickname.length + 1
  if outlen ≤ runlen then ⟨-1, decoded, 0⟩
  else
    let username := cstrAt decoded runlen
    let runlen2 := runlen + username.length + 1
    if outlen ≤ runlen2 then ⟨-1, decoded, 0⟩
    else if nickname ≠ userNickname then ⟨-1, decoded, 0⟩
    else ⟨if authOk then 0 else -1, List.replicate outlen 0, outlen⟩

/-- C6: the terminal `authenticate` routine never returns while the
password buffer still holds a password (every return path after a
password read passes through `bbs_memzero`); and when `do_sasl_auth`
gets past the nickname check, the decoded buffer is all zeroes over its
full length at the point it is freed. -/
theorem password_buffers_zeroed (allow_guest guest_ask_info : Bool)
    (attempts : List AuthAttempt) (userNickname decoded : List Nat)
    (authOk : Bool)
    (h1 : (cstrAt decoded 0).length + 1 < decoded.length)
    (h2 : (cstrAt decoded 0).length + 1 +
            (cstrAt decoded ((cstrAt decoded 0).length + 1)).length + 1
          < decoded.length)
    (hnick : cstrAt decoded 0 = userNickname) :
    ((authenticate allow_guest guest_ask_info attempts).2).holdsPassword
        = false ∧
    (do_sasl_auth userNickname decoded authOk).bufAtFree
        = List.replicate decoded.length 0 ∧
    (do_sasl_auth userNickname decoded authOk).zeroedLen = decoded.length := by
  refine ⟨?_, ?_⟩
  · exact authenticate_loop_no_password allow_guest guest_ask_info 3
      PwBuf.untouched attempts rfl
  · unfold do_sasl_auth
    rw [if_neg (by omega), if_neg (by omega), if_neg (by simp [hnick])]
    exact ⟨rfl, rfl⟩

/-- Witness for C6 on a concrete blob `[1] NUL [2] NUL [3]` (nick, user,
password) whose nickname matches, with a failed guest login attempt on
the terminal side. -/
theorem password_buffers_zeroed_witness :
    ((authenticate true true
        [{ usernameRead := some "alice", regResult := 1,
           guestRespOk := true, guestAuthOk := true, echoOffOk := true,
           pwRead := some "hunter2", authOk := false, echoOnOk := true }]
      ).2).holdsPassword = false ∧
    (do_sasl_auth [1] [1, 0, 2, 0, 3] false).bufAtFree
        = List.replicate ([1, 0, 2, 0, 3] : List Nat).length 0 ∧
    (do_sasl_auth [1] [1, 0, 2, 0, 3] false).zeroedLen
        = ([1, 0, 2, 0, 3] : List Nat).length :=
  password_buffers_zeroed true true
    [{ usernameRead := some "alice", regResult := 1,
       guestRespOk := true, guestAuthOk := true, echoOffOk := true,
       pwRead := some "hunter2", authOk := false, echoOnOk := true }]
    [1] [1, 0, 2, 0, 3] false (by decide) (by decide) (by decide)

/-! ## SFTP READ (handle_read, net_ssh.c) -/

inductive SftpReadReply
  | statusInvalidHandle
  | statusBadMessage
  | readAlloc (bufbytes : Nat)
deriving DecidableEq, Repr

/-- Shallow embedding of `handle_read` (net_ssh.c) up to the buffer
allocation: an invalid or non-file handle is rejected, a zero-length
request is rejected, and the requested length is capped at `2 << 15`
before `malloc(len)` and the `fread` of up to `len` bytes. -/
def handle_read (validFileHandle : Bool) (len : Nat) : SftpReadReply :=
  if validFileHandle = false then .statusInvalidHandle
  else if len < 1 then .statusBadMessage
  else .readAlloc (if 2 <<< 15 < len then 2 <<< 15 else len)

/-- C7: the cap `2 << 15` is 65536, not the 32768 the comment and the
spec promise: a READ request of 40000 bytes on a valid file handle is
not reduced to 32768 — the server allocates and reads 40000 bytes. -/
theorem sftp_read_cap_is_65536 :
    handle_read true 40000 = SftpReadReply.readAlloc 40000 ∧
    (2 : Nat) <<< 15 = 65536 ∧ 32768 < 40000 := by
  decide

/-! ## IRC ping loop (ping_thread, net_irc.c) -/

/-- Minutes expressed in milliseconds.  Modelled from the spec: the
`MIN_MS` macro lives in a header outside src/, but its millisecond unit
is pinned down in src/ by `usleep(PING_TIME * 1000); /* convert ms to
us */` and by `PING_TIME` being passed as the millisecond timeout of
`bbs_fd_poll_read`. -/
def MIN_MS (m : Int) : Int := m * 60 * 1000

def PING_TIME : Int := MIN_MS 2

structure PingTimes where
  lastping : Int
  lastpong : Int
deriving DecidableEq, Repr

inductive PingAction
  | disconnectPingTimeout
  | sendPing
deriving DecidableEq, Repr

/-- One user's treatment by a wake-up of `ping_thread` (net_irc.c):
`now` is in seconds (`time(NULL)`), and the user is disconnected only
when a ping was sent before (`lastping` non-zero) and `lastpong < now -
PING_TIME` — with `PING_TIME` being the millisecond constant 120000;
otherwise `PING :<now>` is sent and `lastping` is set to `now`. -/
def ping_sweep_user (now : Int) (u : PingTimes) : PingTimes × PingAction :=
  if u.lastping ≠ 0 ∧ u.lastpong < now - PING_TIME then
    (u, .disconnectPingTimeout)
  else
    ({ u with lastping := now }, .sendPing)

/-- The whole sweep over the users list. -/
def ping_thread_sweep (now : Int) (users : List PingTimes) :
    List (PingTimes × PingAction) :=
  users.map (ping_sweep_user now)

/-- C8: the code diverges from the claim at a concrete input.  A user
pinged 130 s ago whose last pong is 125 s old — older than now minus the
2-minute interval — is sent another PING instead of being disconnected,
because the millisecond constant 120000 is subtracted from a clock in
seconds; and a never-pinged user (lastping = 0) with an ancient pong is
also pinged, not disconnected. -/
theorem ping_sweep_divergence :
    ping_thread_sweep 1000000 [⟨999870, 999875⟩]
      = [(⟨1000000, 999875⟩, PingAction.sendPing)] ∧
    (999875 : Int) < 1000000 - 120 ∧
    PING_TIME = 120000 ∧
    (ping_sweep_user 1000000 ⟨0, 0⟩).2 = PingAction.sendPing := by
  decide

/-! ## IRC channel engine (net_irc.c)

Users, channels and memberships, with the join/part/quit/kick state
transitions and the privmsg checks, embedded from net_irc.c.  Mode
flags are the bit masks of the source's enums. -/

def MAX_CHANNELS : Nat := 50
def MAX_CHANNEL_LENGTH : Nat := 50

def CHANNEL_MODE_THROTTLED : Nat := 1
def CHANNEL_MODE_LIMIT : Nat := 2
def CHANNEL_MODE_MODERATED : Nat := 4
def CHANNEL_MODE_NO_EXTERNAL : Nat := 8
def CHANNEL_MODE_PRIVATE : Nat := 16
def CHANNEL_MODE_REGISTERED_ONLY : Nat := 32
def CHANNEL_MODE_SECRET : Nat := 64
def CHANNEL_MODE_TOPIC_PROTECTED : Nat := 128
def CHANNEL_MODE_REDUCED_MODERATION : Nat := 256
def CHANNEL_MODE_TLS_ONLY : Nat := 512

def CHANNEL_USER_MODE_NONE : Nat := 0
def CHANNEL_USER_MODE_FOUNDER : Nat := 1
def CHANNEL_USER_MODE_ADMIN : Nat := 2
def CHANNEL_USER_MODE_HALFOP : Nat := 4
def CHANNEL_USER_MODE_OP : Nat := 8
def CHANNEL_USER_MODE_VOICE : Nat := 16

def hasMode (modes flag : Nat) : Bool := modes.land flag ≠ 0

/-- `authorized_atleast` (net_irc.c) on a member's mode bits: the
switch on `atleast` accumulates, by fallthrough, the requested
privilege bit and every strictly higher one; any unknown level
authorizes nothing. -/
def authorized_atleast (modes : Nat) (atleast : Nat) : Bool :=
  ((if atleast = CHANNEL_USER_MODE_VOICE then
      modes.land CHANNEL_USER_MODE_VOICE else 0) |||
   (if atleast = CHANNEL_USER_MODE_VOICE ∨ atleast = CHANNEL_USER_MODE_HALFOP
    then modes.land CHANNEL_USER_MODE_HALFOP else 0) |||
   (if atleast = CHANNEL_USER_MODE_VOICE ∨ atleast = CHANNEL_USER_MODE_HALFOP
        ∨ atleast = CHANNEL_USER_MODE_OP
    then modes.land CHANNEL_USER_MODE_OP else 0) |||
   (if atleast = CHANNEL_USER_MODE_VOICE ∨ atleast = CHANNEL_USER_MODE_HALFOP
        ∨ atleast = CHANNEL_USER_MODE_OP ∨ atleast = CHANNEL_USER_MODE_ADMIN
    then modes.land CHANNEL_USER_MODE_ADMIN else 0) |||
   (if atleast = CHANNEL_USER_MODE_VOICE ∨ atleast = CHANNEL_USER_MODE_HALFOP
        ∨ atleast = CHANNEL_USER_MODE_OP ∨ atleast = CHANNEL_USER_MODE_ADMIN
        ∨ atleast = CHANNEL_USER_MODE_FOUNDER
    then modes.land CHANNEL_USER_MODE_FOUNDER else 0)) ≠ 0

structure IrcMember where
  userId : Nat
  modes : Nat
deriving DecidableEq, Repr

structure IrcChannel where
  name : String
  modes : Nat
  limit : Nat
  membercount : Nat
  members : List IrcMember
deriving DecidableEq, Repr

structure IrcUser where
  userId : Nat
  nickname : String
  registered : Bool
  secure : Bool
  away : Bool
  channelcount : Nat
deriving DecidableEq, Repr

structure IrcState where
  users : List IrcUser
  channels : List IrcChannel
deriving DecidableEq, Repr

def find_user (users : List IrcUser) (uid : Nat) : Option IrcUser :=
  users.find? (fun u => u.userId = uid)

/-- `get_user` (net_irc.c): look a user up by name. -/
def get_user (st : IrcState) (nickname : String) : Option IrcUser :=
  st.users.find? (fun u => u.nickname = nickname)

/-- `get_channel` (net_irc.c): first channel with the given name. -/
def get_channel (channels : List IrcChannel) (name : String) :
    Option IrcChannel :=
  channels.find? (fun c => c.name = name)

def memberOf (ch : IrcChannel) (uid : Nat) : Bool :=
  ch.members.any (fun m => m.userId = uid)

def get_member (ch : IrcChannel) (uid : Nat) : Option IrcMember :=
  ch.members.find? (fun m => m.userId = uid)

def IS_CHANNEL_NAME (s : String) : Bool :=
  match s.toList with
  | [] => false
  | c :: _ => c == '#' || c == '&'

def VALID_CHANNEL_NAME (s : String) : Bool :=
  !s.toList.isEmpty && IS_CHANNEL_NAME s

/-- `valid_channame` (net_irc.c): every character must be alphanumeric
or a dash, except that the first may be `#` or `&`. -/
def valid_channame (s : String) : Bool :=
  s.toList.enum.all (fun p =>
    p.2.isAlphanum || p.2 == '-' || (p.1 == 0 && (p.2 == '#' || p.2 == '&')))

def updateUser (users : List IrcUser) (uid : Nat) (f : IrcUser → IrcUser) :
    List IrcUser :=
  users.map (fun u => if u.userId = uid then f u else u)

/-- In-place update of the first channel with the given name
(the source mutates the node it found during its traversal). -/
def updateChannel : List IrcChannel → String → (IrcChannel → IrcChannel) →
    List IrcChannel
  | [], _, _ => []
  | c :: rest, name, f =>
    if c.name = name then f c :: rest else c :: updateChannel rest name f

/-- `remove_channel` (net_irc.c): unlink the (first) channel with this
name from the channels list. -/
def removeChannelByName : List IrcChannel → String → List IrcChannel
  | [], _ => []
  | c :: rest, name =>
    if c.name = name then rest else c :: removeChannelByName rest name

/-- The `RWLIST_TRAVERSE_SAFE_BEGIN` removal of the first member with
this user (leave_channel / kick_member / drop_member_if_present). -/
def removeFirstMember : List IrcMember → Nat → List IrcMember
  | [], _ => []
  | m :: rest, uid =>
    if m.userId = uid then rest else m :: removeFirstMember rest uid

/-- Member removal together with the `membercount -= 1` the source
performs exactly when a member was found and unlinked. -/
def removeMemberFromChannel (ch : IrcChannel) (uid : Nat) : IrcChannel :=
  if memberOf ch uid then
    { ch with members := removeFirstMember ch.members uid,
              membercount := ch.membercount - 1 }
  else ch

/-- `RWLIST_INSERT_HEAD` of a new member plus `membercount += 1`. -/
def addMemberToChannel (ch : IrcChannel) (m : IrcMember) : IrcChannel :=
  { ch with members := m :: ch.members, membercount := ch.membercount + 1 }

def incChannelcount (u : IrcUser) : IrcUser :=
  { u with channelcount := u.channelcount + 1 }

def decChannelcount (n : Nat) (u : IrcUser) : IrcUser :=
  { u with channelcount := u.channelcount - n }

/-- Shallow embedding of `join_channel` (net_irc.c).  The returned
number is the rejection numeric (0 on success).  A missing channel is
created with no-external and topic-protected set (plus registered-only
when the creator is registered), and the creator is made op (and
founder for user id 1); an existing channel enforces the TLS-only,
registered-only and limit modes and the double-join check.  On success
the member is inserted, the channel's `membercount` and the user's
`channelcount` are both incremented. -/
def join_channel (st : IrcState) (uid : Nat) (name : String) :
    IrcState × Nat :=
  match find_user st.users uid with
  | none => (st, 401)
  | some user =>
    if VALID_CHANNEL_NAME name = false ∨
        MAX_CHANNEL_LENGTH < name.length ∨ valid_channame name = false then
      (st, 479)
    else if MAX_CHANNELS < user.channelcount then (st, 405)
    else
      match get_channel st.channels name with
      | none =>
        ({ users := updateUser st.users uid incChannelcount,
           channels :=
             addMemberToChannel
               { name := name,
                 modes := CHANNEL_MODE_NO_EXTERNAL |||
                   CHANNEL_MODE_TOPIC_PROTECTED |||
                   (if user.registered then CHANNEL_MODE_REGISTERED_ONLY
                    else 0),
                 limit := 0, membercount := 0, members := [] }
               ⟨uid, CHANNEL_USER_MODE_OP |||
                 (if uid = 1 then CHANNEL_USER_MODE_FOUNDER else 0)⟩
             :: st.channels }, 0)
      | some ch =>
        if hasMode ch.modes CHANNEL_MODE_TLS_ONLY ∧ user.secure = false then
          (st, 477)
        else if hasMode ch.modes CHANNEL_MODE_REGISTERED_ONLY ∧
            user.registered = false then
          (st, 477)
        else if hasMode ch.modes CHANNEL_MODE_LIMIT ∧ ch.limit ≠ 0 ∧
            ch.limit ≤ ch.membercount then
          (st, 471)
        else if memberOf ch uid then (st, 714)
        else
          ({ users := updateUser st.users uid incChannelcount,
             channels := updateChannel st.channels name
               (fun c => addMemberToChannel c ⟨uid, CHANNEL_USER_MODE_NONE⟩) },
           0)

/-- Shallow embedding of `leave_channel` (net_irc.c): remove the
member, decrementing the channel's `membercount` and the user's
`channelcount`; a channel left with no members is removed from the
channels list (all under the channels writer lock). -/
def leave_channel (st : IrcState) (uid : Nat) (name : String) :
    IrcState × Nat :=
  match get_channel st.channels name with
  | none => (st, 403)
  | some ch =>
    ({ users :=
         if memberOf ch uid then
           updateUser st.users uid (decChannelcount 1)
         else st.users,
       channels :=
         if (removeMemberFromChannel ch uid).members.isEmpty then
           removeChannelByName st.channels name
         else
           updateChannel st.channels name
             (fun _ => removeMemberFromChannel ch uid) },
     if memberOf ch uid then 0 else 442)

/-- The `RWLIST_TRAVERSE_SAFE_BEGIN` sweep of `leave_all_channels`,
with `drop_member_if_present` (net_irc.c) inlined per channel: drop
the user if present (removing the channel when it becomes empty), and
count how many memberships were removed — each removal decremented the
user's `channelcount` by one in the source. -/
def leave_all_go : List IrcChannel → Nat → List IrcChannel × Nat
  | [], _ => ([], 0)
  | c :: rest, uid =>
    (if (removeMemberFromChannel c uid).members.isEmpty then
       (leave_all_go rest uid).1
     else removeMemberFromChannel c uid :: (leave_all_go rest uid).1,
     (leave_all_go rest uid).2 + (if memberOf c uid then 1 else 0))

def leave_all_channels (st : IrcState) (uid : Nat) : IrcState :=
  { users := updateUser st.users uid
      (decChannelcount (leave_all_go st.channels uid).2),
    channels := (leave_all_go st.channels uid).1 }

/-- Shallow embedding of the KICK handler plus `kick_member`
(net_irc.c): the kicker must be a member with at least half-op, the
channel and the kicked member must exist; the member is then unlinked
and the channel's `membercount` decremented — but, unlike part and
quit, the kicked user's `channelcount` is not touched — and an emptied
channel is removed from the channels list. -/
def kick_handler (st : IrcState) (kicker kicked : Nat) (name : String) :
    IrcState × Nat :=
  match get_channel st.channels name with
  | none => (st, 482)
  | some ch =>
    match get_member ch kicker with
    | none => (st, 482)
    | some km =>
      if authorized_atleast km.modes CHANNEL_USER_MODE_HALFOP = false then
        (st, 482)
      else
        match get_member ch kicked with
        | none => (st, 401)
        | some _ =>
          ({ st with channels :=
              (if (removeMemberFromChannel ch kicked).members.isEmpty then
                removeChannelByName st.channels name
              else
                updateChannel st.channels name
                  (fun _ => removeMemberFromChannel ch kicked)) }, 0)

inductive IrcOp
  | join (uid : Nat) (name : String)
  | part (uid : Nat) (name : String)
  | quit (uid : Nat)
  | kick (kicker kicked : Nat) (name : String)
deriving DecidableEq, Repr

def applyIrcOp (st : IrcState) : IrcOp → IrcState
  | .join uid name => (join_channel st uid name).1
  | .part uid name => (leave_channel st uid name).1
  | .quit uid => leave_all_channels st uid
  | .kick kicker kicked name => (kick_handler st kicker kicked name).1

def runIrc (ops : List IrcOp) (st : IrcState) : IrcState :=
  ops.foldl applyIrcOp st

def mkIrcUser (uid : Nat) (nick : String) (reg sec : Bool) : IrcUser :=
  { userId := uid, nickname := nick, registered := reg, secure := sec,
    away := false, channelcount := 0 }

/-- Initial IRC state: a set of connected users, no channels, all
per-user channel counters zero. -/
def initIrc (users0 : List (Nat × String × Bool × Bool)) : IrcState :=
  { users := users0.map (fun p => mkIrcUser p.1 p.2.1 p.2.2.1 p.2.2.2),
    channels := [] }

/-! ## Privmsg / notice (privmsg, net_irc.c) -/

inductive PrivmsgResult
  | numeric (n : Nat)
  | nullMemberDeref
  | userDelivered (nickname : String) (awayNotice : Bool)
  | channelDelivered (recipients : List Nat) (minmode : Nat)
deriving DecidableEq, Repr

/-- The recipient set computed by `__channel_broadcast` (net_irc.c):
every member except the excluded sender and those below `minmode`
(when `minmode` is non-zero). -/
def broadcast_recipients (members : List IrcMember) (senderUid : Nat)
    (minmode : Nat) : List Nat :=
  (members.filter (fun m =>
    ¬(m.userId = senderUid) ∧
      (minmode = 0 ∨ authorized_atleast m.modes minmode = true))).map
    IrcMember.userId

/-- Shallow embedding of `privmsg` (net_irc.c).  Empty messages get
numeric 412, messages of 510 bytes or more numeric 416; a non-channel
target is a private message (with a 301 back when the target is away);
for channels: unknown channel 403; a non-member sender to a
no-external channel 442; on a moderated channel the source calls
`authorized_atleast(m, VOICE)` — when the sender is not a member at
all (`m == NULL`, possible because the no-external rejection did not
fire) this dereferences a null member and crashes, modelled as
`nullMemberDeref`; a voiceless member gets numeric 489, or, under
reduced moderation, delivery restricted to half-ops and above. -/
def privmsg (st : IrcState) (senderUid : Nat) (channame : String)
    (message : String) : PrivmsgResult :=
  if message.toList.isEmpty then .numeric 412
  else if 510 ≤ message.length then .numeric 416
  else if IS_CHANNEL_NAME channame = false then
    match get_user st channame with
    | none => .numeric 401
    | some u2 => .userDelivered u2.nickname u2.away
  else
    match get_channel st.channels channame with
    | none => .numeric 403
    | some channel =>
      if (get_member channel senderUid).isNone ∧
          hasMode channel.modes CHANNEL_MODE_NO_EXTERNAL then .numeric 442
      else if hasMode channel.modes CHANNEL_MODE_MODERATED then
        match get_member channel senderUid with
        | none => .nullMemberDeref
        | some mem =>
          if authorized_atleast mem.modes CHANNEL_USER_MODE_VOICE = false then
            if hasMode channel.modes CHANNEL_MODE_REDUCED_MODERATION then
              .channelDelivered
                (broadcast_recipients channel.members senderUid
                  CHANNEL_USER_MODE_HALFOP)
                CHANNEL_USER_MODE_HALFOP
            else .numeric 489
          else
            .channelDelivered
              (broadcast_recipients channel.members senderUid 0) 0
      else
        .channelDelivered (broadcast_recipients channel.members senderUid 0) 0

/-- C4: evaluation at the failing input.  The channel `#c` is moderated
but not no-external; user 1 is not a member and sends "hi" (non-empty,
short).  The claim says the message is rejected with "neither voiced
nor an operator" (numeric 489); the code instead reaches
`authorized_atleast(m, CHANNEL_USER_MODE_VOICE)` with a null member
pointer and dereferences it. -/
theorem privmsg_nonmember_moderated_null_deref :
    hasMode CHANNEL_MODE_MODERATED CHANNEL_MODE_MODERATED = true ∧
    hasMode CHANNEL_MODE_MODERATED CHANNEL_MODE_NO_EXTERNAL = false ∧
    memberOf ⟨"#c", CHANNEL_MODE_MODERATED, 0, 1, [⟨2, CHANNEL_USER_MODE_OP⟩]⟩
      1 = false ∧
    privmsg
      ⟨[mkIrcUser 1 "alice" true true, mkIrcUser 2 "bob" true true],
       [⟨"#c", CHANNEL_MODE_MODERATED, 0, 1, [⟨2, CHANNEL_USER_MODE_OP⟩]⟩]⟩
      1 "#c" "hi" = PrivmsgResult.nullMemberDeref := by
  decide

/-! ## Lock traces of the channel-removal paths (net_irc.c)

Each operation's sequence of lock acquisitions, member removals and
channel removals, transcribed from the source in program order.  The
booleans select the branch taken (channel found, member found, channel
left empty). -/

inductive LockEv
  | channelsWrLock
  | channelsWrUnlock
  | channelsRdLock
  | channelsRdUnlock
  | membersWrLock
  | membersWrUnlock
  | removeMemberEv
  | removeChannelEv
deriving DecidableEq, Repr

/-- Lock/removal trace of `leave_channel`: everything happens between
`RWLIST_WRLOCK(&channels)` and its unlock. -/
def leave_channel_lock_trace (found member lastMember : Bool) :
    List LockEv :=
  if found = false then [LockEv.channelsWrLock, LockEv.channelsWrUnlock]
  else
    [LockEv.channelsWrLock, LockEv.membersWrLock] ++
    (if member then [LockEv.removeMemberEv] else []) ++
    [LockEv.membersWrUnlock] ++
    (if member ∧ lastMember then [LockEv.removeChannelEv] else []) ++
    [LockEv.channelsWrUnlock]

/-- Lock/removal trace of `drop_member_if_present` (one channel of the
`leave_all_channels` sweep, which holds the channels writer lock). -/
def drop_member_lock_trace (member lastMember : Bool) : List LockEv :=
  [LockEv.membersWrLock] ++
  (if member then [LockEv.removeMemberEv] else []) ++
  [LockEv.membersWrUnlock] ++
  (if lastMember then [LockEv.removeChannelEv] else [])

def leave_all_channels_lock_trace (cs : List (Bool × Bool)) : List LockEv :=
  [LockEv.channelsWrLock] ++
  (cs.map (fun p => drop_member_lock_trace p.1 p.2)).flatten ++
  [LockEv.channelsWrUnlock]

/-- Lock/removal trace of the KICK handler: `get_member_by_channel_name`
for the kicker, `get_channel`, `get_member_by_username` for the kicked
each take and release the channels reader lock; `kick_member` then
takes only the members writer lock, and calls `remove_channel` after
releasing it, with no channels lock held at all. -/
def kick_handler_lock_trace (found lastMember : Bool) : List LockEv :=
  [LockEv.channelsRdLock, LockEv.channelsRdUnlock,
   LockEv.channelsRdLock, LockEv.channelsRdUnlock,
   LockEv.channelsRdLock, LockEv.channelsRdUnlock,
   LockEv.membersWrLock] ++
  (if found then [LockEv.removeMemberEv] else []) ++
  [LockEv.membersWrUnlock] ++
  (if lastMember then [LockEv.removeChannelEv] else [])

def removesUnderWrLockGo : Nat → List LockEv → Bool
  | _, [] => true
  | d, LockEv.channelsWrLock :: r => removesUnderWrLockGo (d + 1) r
  | d, LockEv.channelsWrUnlock :: r => removesUnderWrLockGo (d - 1) r
  | d, LockEv.removeChannelEv :: r =>
    decide (0 < d) && removesUnderWrLockGo d r
  | d, _ :: r => removesUnderWrLockGo d r

/-- Every channel removal in the trace happens while the channels
writer lock is held. -/
def removesUnderWrLock (tr : List LockEv) : Bool :=
  removesUnderWrLockGo 0 tr

/-! ## Invariants of the channel engine

`chanInv` is the per-channel invariant of the spec (`count ==
len(members)`, no empty channel in the list) plus membership
uniqueness, which `join_channel`'s double-join check maintains.
`countMember` counts the channels a user is actually in, to compare
with the user's denormalized `channelcount`. -/

def chanInv (ch : IrcChannel) : Prop :=
  ch.membercount = ch.members.length ∧ ch.members ≠ [] ∧
  (ch.members.map IrcMember.userId).Nodup

def countMember (l : List IrcChannel) (uid : Nat) : Nat :=
  (l.filter (fun ch => memberOf ch uid)).length

def actualCount (st : IrcState) (uid : Nat) : Nat :=
  countMember st.channels uid

def storedCount (st : IrcState) (uid : Nat) : Nat :=
  match find_user st.users uid with
  | none => 0
  | some u => u.channelcount

def GoodState (st : IrcState) : Prop :=
  (∀ ch ∈ st.channels, chanInv ch) ∧
  (∀ uid, actualCount st uid ≤ storedCount st uid)

theorem removeFirstMember_sublist :
    ∀ (mems : List IrcMember) (uid : Nat),
      (removeFirstMember mems uid).Sublist mems := by
  intro mems uid
  induction mems with
  | nil => exact List.Sublist.refl []
  | cons m rest ih =>
    rw [removeFirstMember]
    split
    · exact List.sublist_cons_self m rest
    · exact List.Sublist.cons₂ m ih

theorem removeFirstMember_self (uid : Nat) :
    ∀ mems : List IrcMember, (mems.map IrcMember.userId).Nodup →
      (removeFirstMember mems uid).any (fun m => m.userId = uid) = false := by
  intro mems
  induction mems with
  | nil => intro _; rfl
  | cons m rest ih =>
    intro hnd
    rw [List.map_cons, List.nodup_cons] at hnd
    rw [removeFirstMember]
    split
    · rename_i heq
      rw [List.any_eq_false]
      intro x hx hxe
      exact hnd.1 (heq ▸ (by simpa using hxe) ▸ List.mem_map_of_mem IrcMember.userId hx)
    · rename_i hne
      rw [List.any_cons, Bool.or_eq_false_iff]
      exact ⟨by simpa using hne, ih hnd.2⟩

theorem removeFirstMember_other (uid uid' : Nat) (hne : uid' ≠ uid) :
    ∀ mems : List IrcMember,
      (removeFirstMember mems uid).any (fun m => m.userId = uid')
        = mems.any (fun m => m.userId = uid') := by
  intro mems
  induction mems with
  | nil => rfl
  | cons m rest ih =>
    rw [removeFirstMember]
    split
    · rename_i heq
      rw [List.any_cons]
      have : (decide (m.userId = uid')) = false := by
        simp only [decide_eq_false_iff_not]
        rw [heq]
        exact fun h => hne h.symm
      rw [this, Bool.false_or]
    · rw [List.any_cons, List.any_cons, ih]

theorem removeFirstMember_length (uid : Nat) :
    ∀ mems : List IrcMember,
      mems.any (fun m => m.userId = uid) = true →
      (removeFirstMember mems uid).length + 1 = mems.length := by
  intro mems
  induction mems with
  | nil => intro h; cases h
  | cons m rest ih =>
    intro hmem
    rw [removeFirstMember]
    split
    · rfl
    · rename_i hne
      rw [List.any_cons] at hmem
      have hrest : rest.any (fun m => m.userId = uid) = true := by
        rcases Bool.or_eq_true_iff.mp hmem with h | h
        · exact absurd (of_decide_eq_true h) hne
        · exact h
      have := ih hrest
      simp only [List.length_cons]
      omega

theorem memberOf_remove_self (ch : IrcChannel) (uid : Nat)
    (hnd : (ch.members.map IrcMember.userId).Nodup) :
    memberOf (removeMemberFromChannel ch uid) uid = false := by
  unfold removeMemberFromChannel
  split
  · exact removeFirstMember_self uid ch.members hnd
  · rename_i h
    exact Bool.not_eq_true _ ▸ (by simpa [memberOf] using h)

theorem memberOf_remove_other (ch : IrcChannel) (uid uid' : Nat)
    (hne : uid' ≠ uid) :
    memberOf (removeMemberFromChannel ch uid) uid' = memberOf ch uid' := by
  unfold removeMemberFromChannel
  split
  · exact removeFirstMember_other uid uid' hne ch.members
  · rfl

theorem chanInv_remove (ch : IrcChannel) (uid : Nat) (hinv : chanInv ch)
    (hmem : memberOf ch uid = true) :
    (removeMemberFromChannel ch uid).membercount
      = (removeMemberFromChannel ch uid).members.length ∧
    ((removeMemberFromChannel ch uid).members.map IrcMember.userId).Nodup := by
  unfold removeMemberFromChannel
  rw [if_pos hmem]
  constructor
  · have hlen := removeFirstMember_length uid ch.members hmem
    have hcount := hinv.1
    simp only
    omega
  · exact hinv.2.2.sublist
      (List.Sublist.map IrcMember.userId (removeFirstMember_sublist ch.members uid))

theorem memberOf_add (ch : IrcChannel) (m : IrcMember) (uid : Nat) :
    memberOf (addMemberToChannel ch m) uid
      = ((m.userId = uid) || memberOf ch uid) := by
  unfold addMemberToChannel memberOf
  rw [List.any_cons]

theorem chanInv_add (ch : IrcChannel) (m : IrcMember) (hinv : chanInv ch)
    (hnew : memberOf ch m.userId = false) :
    chanInv (addMemberToChannel ch m) := by
  unfold addMemberToChannel
  refine ⟨by simp [hinv.1], by simp, ?_⟩
  rw [List.map_cons, List.nodup_cons]
  refine ⟨?_, hinv.2.2⟩
  intro hmem
  rcases List.mem_map.mp hmem with ⟨x, hx, hxe⟩
  have : memberOf ch m.userId = true := by
    unfold memberOf
    rw [List.any_eq_true]
    exact ⟨x, hx, by simp [hxe]⟩
  rw [this] at hnew
  cases hnew

theorem countMember_cons (c : IrcChannel) (l : List IrcChannel) (uid : Nat) :
    countMember (c :: l) uid
      = (if memberOf c uid then 1 else 0) + countMember l uid := by
  unfold countMember
  rw [List.filter_cons]
  split
  · simp only [List.length_cons]
    omega
  · omega

theorem get_channel_cons_pos (c : IrcChannel) (l : List IrcChannel)
    (name : String) (h : c.name = name) :
    get_channel (c :: l) name = some c := by
  unfold get_channel
  rw [List.find?_cons_of_pos]
  simpa using h

theorem get_channel_cons_neg (c : IrcChannel) (l : List IrcChannel)
    (name : String) (h : ¬c.name = name) :
    get_channel (c :: l) name = get_channel l name := by
  unfold get_channel
  rw [List.find?_cons_of_neg]
  simpa using h

theorem countMember_updateChannel (name : String) (f : IrcChannel → IrcChannel)
    (uid : Nat) :
    ∀ (l : List IrcChannel) (c : IrcChannel), get_channel l name = some c →
      countMember (updateChannel l name f) uid
          + (if memberOf c uid then 1 else 0)
        = countMember l uid + (if memberOf (f c) uid then 1 else 0) := by
  intro l
  induction l with
  | nil => intro c h; cases h
  | cons c0 rest ih =>
    intro c h
    by_cases hn : c0.name = name
    · rw [get_channel_cons_pos c0 rest name hn] at h
      injection h with h
      subst h
      rw [updateChannel, if_pos hn, countMember_cons, countMember_cons]
      omega
    · rw [get_channel_cons_neg c0 rest name hn] at h
      rw [updateChannel, if_neg hn, countMember_cons, countMember_cons]
      have := ih c h
      omega

theorem countMember_removeChannel (name : String) (uid : Nat) :
    ∀ (l : List IrcChannel) (c : IrcChannel), get_channel l name = some c →
      countMember (removeChannelByName l name) uid
          + (if memberOf c uid then 1 else 0)
        = countMember l uid := by
  intro l
  induction l with
  | nil => intro c h; cases h
  | cons c0 rest ih =>
    intro c h
    by_cases hn : c0.name = name
    · rw [get_channel_cons_pos c0 rest name hn] at h
      injection h with h
      subst h
      rw [removeChannelByName, if_pos hn, countMember_cons]
      omega
    · rw [get_channel_cons_neg c0 rest name hn] at h
      rw [removeChannelByName, if_neg hn, countMember_cons, countMember_cons]
      have := ih c h
      omega

theorem updateChannel_not_found (name : String) (f : IrcChannel → IrcChannel) :
    ∀ l : List IrcChannel, get_channel l name = none →
      updateChannel l name f = l := by
  intro l
  induction l with
  | nil => intro _; rfl
  | cons c0 rest ih =>
    intro h
    by_cases hn : c0.name = name
    · rw [get_channel_cons_pos c0 rest name hn] at h; cases h
    · rw [get_channel_cons_neg c0 rest name hn] at h
      rw [updateChannel, if_neg hn, ih h]

theorem updateChannel_self (name : String) :
    ∀ (l : List IrcChannel) (c : IrcChannel), get_channel l name = some c →
      updateChannel l name (fun _ => c) = l := by
  intro l
  induction l with
  | nil => intro c h; cases h
  | cons c0 rest ih =>
    intro c h
    by_cases hn : c0.name = name
    · rw [get_channel_cons_pos c0 rest name hn] at h
      injection h with h
      subst h
      rw [updateChannel, if_pos hn]
    · rw [get_channel_cons_neg c0 rest name hn] at h
      rw [updateChannel, if_neg hn, ih c h]

theorem mem_updateChannel (name : String) (f : IrcChannel → IrcChannel) :
    ∀ (l : List IrcChannel) (x : IrcChannel), x ∈ updateChannel l name f →
      x ∈ l ∨ ∃ c ∈ l, c.name = name ∧ x = f c := by
  intro l
  induction l with
  | nil => intro x hx; cases hx
  | cons c0 rest ih =>
    intro x hx
    rw [updateChannel] at hx
    split at hx
    · rename_i hn
      rcases List.mem_cons.mp hx with rfl | hx'
      · exact Or.inr ⟨c0, List.mem_cons_self c0 rest, hn, rfl⟩
      · exact Or.inl (List.mem_cons.mpr (Or.inr hx'))
    · rcases List.mem_cons.mp hx with rfl | hx'
      · exact Or.inl (List.mem_cons_self x rest)
      · rcases ih x hx' with h | ⟨c, hc, hcn, hcf⟩
        · exact Or.inl (List.mem_cons.mpr (Or.inr h))
        · exact Or.inr ⟨c, List.mem_cons.mpr (Or.inr hc), hcn, hcf⟩

theorem removeChannelByName_sublist :
    ∀ (l : List IrcChannel) (name : String),
      (removeChannelByName l name).Sublist l := by
  intro l name
  induction l with
  | nil => exact List.Sublist.refl []
  | cons c0 rest ih =>
    rw [removeChannelByName]
    split
    · exact List.sublist_cons_self c0 rest
    · exact List.Sublist.cons₂ c0 ih

theorem get_channel_mem :
    ∀ (l : List IrcChannel) (name : String) (c : IrcChannel),
      get_channel l name = some c → c ∈ l ∧ c.name = name := by
  intro l name c h
  unfold get_channel at h
  refine ⟨List.mem_of_find?_eq_some h, ?_⟩
  have := List.find?_some h
  simpa using this

theorem find_user_updateUser_self (uid : Nat) (f : IrcUser → IrcUser)
    (hpres : ∀ u, (f u).userId = u.userId) :
    ∀ users : List IrcUser,
      find_user (updateUser users uid f) uid
        = (find_user users uid).map f := by
  intro users
  induction users with
  | nil => rfl
  | cons u rest ih =>
    unfold updateUser find_user
    rw [List.map_cons]
    by_cases hu : u.userId = uid
    · rw [if_pos hu]
      rw [List.find?_cons_of_pos, List.find?_cons_of_pos]
      · rfl
      · simpa using hu
      · simp [hpres, hu]
    · rw [if_neg hu]
      rw [List.find?_cons_of_neg, List.find?_cons_of_neg]
      · exact ih
      · simpa using hu
      · simpa using hu

theorem mem_updateChannel_found (name : String) (f : IrcChannel → IrcChannel) :
    ∀ (l : List IrcChannel) (c : IrcChannel), get_channel l name = some c →
      ∀ x ∈ updateChannel l name f, x ∈ l ∨ x = f c := by
  intro l
  induction l with
  | nil => intro c h; cases h
  | cons c0 rest ih =>
    intro c h x hx
    by_cases hn : c0.name = name
    · rw [get_channel_cons_pos c0 rest name hn] at h
      injection h with h
      subst h
      rw [updateChannel, if_pos hn] at hx
      rcases List.mem_cons.mp hx with rfl | hx'
      · exact Or.inr rfl
      · exact Or.inl (List.mem_cons.mpr (Or.inr hx'))
    · rw [get_channel_cons_neg c0 rest name hn] at h
      rw [updateChannel, if_neg hn] at hx
      rcases List.mem_cons.mp hx with rfl | hx'
      · exact Or.inl (List.mem_cons_self x rest)
      · rcases ih c h x hx' with h' | h'
        · exact Or.inl (List.mem_cons.mpr (Or.inr h'))
        · exact Or.inr h'

/-- A removal that leaves the member list non-empty preserves the
channel invariant. -/
theorem chanInv_of_remove_kept (ch : IrcChannel) (uid : Nat)
    (hinv : chanInv ch)
    (hne : (removeMemberFromChannel ch uid).members ≠ []) :
    chanInv (removeMemberFromChannel ch uid) := by
  by_cases hmem : memberOf ch uid = true
  · exact ⟨(chanInv_remove ch uid hinv hmem).1, hne,
      (chanInv_remove ch uid hinv hmem).2⟩
  · have : removeMemberFromChannel ch uid = ch := by
      unfold removeMemberFromChannel
      rw [if_neg hmem]
    rw [this]
    exact hinv

theorem find_user_updateUser_other (uid uid' : Nat) (f : IrcUser → IrcUser)
    (hpres : ∀ u, (f u).userId = u.userId) (hne : uid' ≠ uid) :
    ∀ users : List IrcUser,
      find_user (updateUser users uid f) uid' = find_user users uid' := by
  intro users
  induction users with
  | nil => rfl
  | cons u rest ih =>
    unfold updateUser find_user
    rw [List.map_cons]
    by_cases hu : u.userId = uid
    · rw [if_pos hu]
      rw [List.find?_cons_of_neg, List.find?_cons_of_neg]
      · exact ih
      · simp [hu]; exact fun h => hne h.symm
      · simp [hpres, hu]; exact fun h => hne h.symm
    · rw [if_neg hu]
      by_cases hu' : u.userId = uid'
      · rw [List.find?_cons_of_pos, List.find?_cons_of_pos]
        · simpa using hu'
        · simpa using hu'
      · rw [List.find?_cons_of_neg, List.find?_cons_of_neg]
        · exact ih
        · simpa using hu'
        · simpa using hu'

/-! ## Per-operation preservation of the channel invariant -/

theorem join_channel_inv (st : IrcState) (uid : Nat) (name : String)
    (hinv : ∀ ch ∈ st.channels, chanInv ch) :
    ∀ x ∈ (join_channel st uid name).1.channels, chanInv x := by
  unfold join_channel
  cases hfu : find_user st.users uid with
  | none => simpa using hinv
  | some user =>
    simp only
    split
    · simpa using hinv
    · split
      · simpa using hinv
      · cases hgc : get_channel st.channels name with
        | none =>
          simp only
          intro x hx
          rcases List.mem_cons.mp hx with rfl | hx'
          · refine ⟨rfl, ?_, ?_⟩ <;> simp [addMemberToChannel]
          · exact hinv x hx'
        | some ch =>
          simp only
          split
          · simpa using hinv
          · split
            · simpa using hinv
            · split
              · simpa using hinv
              · split
                · simpa using hinv
                · rename_i hnm
                  intro x hx
                  rcases mem_updateChannel_found name _ st.channels ch hgc
                      x hx with h | rfl
                  · exact hinv x h
                  · exact chanInv_add ch _
                      (hinv ch (get_channel_mem st.channels name ch hgc).1)
                      (Bool.eq_false_iff.mpr hnm)

theorem leave_channel_inv (st : IrcState) (uid : Nat) (name : String)
    (hinv : ∀ ch ∈ st.channels, chanInv ch) :
    ∀ x ∈ (leave_channel st uid name).1.channels, chanInv x := by
  unfold leave_channel
  cases hgc : get_channel st.channels name with
  | none => simpa using hinv
  | some ch =>
    simp only
    intro x hx
    split at hx
    · exact hinv x ((removeChannelByName_sublist st.channels name).subset hx)
    · rename_i hne
      rcases mem_updateChannel_found name _ st.channels ch hgc x hx with h | rfl
      · exact hinv x h
      · exact chanInv_of_remove_kept ch uid
          (hinv ch (get_channel_mem st.channels name ch hgc).1)
          (fun h => hne (by simpa using h))

theorem kick_handler_inv (st : IrcState) (kicker kicked : Nat) (name : String)
    (hinv : ∀ ch ∈ st.channels, chanInv ch) :
    ∀ x ∈ (kick_handler st kicker kicked name).1.channels, chanInv x := by
  unfold kick_handler
  cases hgc : get_channel st.channels name with
  | none => simpa using hinv
  | some ch =>
    simp only
    cases hm1 : get_member ch kicker with
    | none => simpa using hinv
    | some km =>
      simp only
      split
      · simpa using hinv
      · cases hm2 : get_member ch kicked with
        | none => simpa using hinv
        | some m2 =>
          simp only
          intro x hx
          split at hx
          · exact hinv x
              ((removeChannelByName_sublist st.channels name).subset hx)
          · rename_i hne
            rcases mem_updateChannel_found name _ st.channels ch hgc
                x hx with h | rfl
            · exact hinv x h
            · exact chanInv_of_remove_kept ch kicked
                (hinv ch (get_channel_mem st.channels name ch hgc).1)
                (fun h => hne (by simpa using h))

theorem leave_all_go_inv (uid : Nat) :
    ∀ l : List IrcChannel, (∀ c ∈ l, chanInv c) →
      ∀ x ∈ (leave_all_go l uid).1, chanInv x := by
  intro l
  induction l with
  | nil => intro _ x hx; cases hx
  | cons c rest ih =>
    intro hinv x hx
    have hc : chanInv c := hinv c (List.mem_cons_self c rest)
    have hrest : ∀ c' ∈ rest, chanInv c' :=
      fun c' h => hinv c' (List.mem_cons.mpr (Or.inr h))
    rw [leave_all_go] at hx
    dsimp only at hx
    split at hx
    · exact ih hrest x hx
    · rename_i hne
      rcases List.mem_cons.mp hx with rfl | hx'
      · exact chanInv_of_remove_kept c uid hc (fun h => hne (by simpa using h))
      · exact ih hrest x hx'

theorem leave_all_channels_inv (st : IrcState) (uid : Nat)
    (hinv : ∀ ch ∈ st.channels, chanInv ch) :
    ∀ x ∈ (leave_all_channels st uid).channels, chanInv x := by
  unfold leave_all_channels
  exact leave_all_go_inv uid st.channels hinv

theorem find?_isSome_any (p : IrcMember → Bool) :
    ∀ l : List IrcMember, (l.find? p).isSome = l.any p := by
  intro l
  induction l with
  | nil => rfl
  | cons m rest ih =>
    rw [List.any_cons]
    by_cases h : p m = true
    · rw [List.find?_cons_of_pos _ h, h, Bool.true_or]
      rfl
    · rw [List.find?_cons_of_neg _ h, ih, Bool.eq_false_iff.mpr h,
        Bool.false_or]

theorem get_member_isSome (ch : IrcChannel) (uid : Nat) :
    (get_member ch uid).isSome = memberOf ch uid :=
  find?_isSome_any _ ch.members

theorem incChannelcount_userId : ∀ u, (incChannelcount u).userId = u.userId :=
  fun _ => rfl

theorem decChannelcount_userId (n : Nat) :
    ∀ u, (decChannelcount n u).userId = u.userId :=
  fun _ => rfl

/-- Count effect of a successful or failed join: failures leave the
state untouched; a success increments the joining user's actual
membership count and `channelcount`, and nobody else's. -/
theorem join_channel_counts (st : IrcState) (uid : Nat) (name : String) :
    ((join_channel st uid name).2 ≠ 0 ∧ (join_channel st uid name).1 = st) ∨
    ((join_channel st uid name).2 = 0 ∧
     (∀ uid', uid' ≠ uid →
        countMember (join_channel st uid name).1.channels uid'
          = countMember st.channels uid' ∧
        find_user (join_channel st uid name).1.users uid'
          = find_user st.users uid') ∧
     countMember (join_channel st uid name).1.channels uid
        = countMember st.channels uid + 1 ∧
     (∃ u, find_user st.users uid = some u ∧
        find_user (join_channel st uid name).1.users uid
          = some (incChannelcount u))) := by
  unfold join_channel
  cases hfu : find_user st.users uid with
  | none => exact Or.inl ⟨by simp, rfl⟩
  | some user =>
    simp only
    split
    · exact Or.inl ⟨by simp, rfl⟩
    · split
      · exact Or.inl ⟨by simp, rfl⟩
      · cases hgc : get_channel st.channels name with
        | none =>
          refine Or.inr ⟨rfl, ?_, ?_, ?_⟩
          · intro uid' hne
            constructor
            · simp only
              rw [countMember_cons]
              have hd : (decide (uid = uid')) = false := by
                simp only [decide_eq_false_iff_not]
                exact fun h => hne h.symm
              rw [memberOf_add, hd, Bool.false_or]
              show (if False then 1 else 0) + countMember st.channels uid'
                = countMember st.channels uid'
              simp
            · exact find_user_updateUser_other uid uid' incChannelcount
                incChannelcount_userId hne st.users
          · simp only
            rw [countMember_cons]
            rw [memberOf_add]
            show (if (decide (uid = uid) || false) = true then 1 else 0)
                + countMember st.channels uid
              = countMember st.channels uid + 1
            simp [Nat.add_comm]
          · refine ⟨user, rfl, ?_⟩
            rw [find_user_updateUser_self uid incChannelcount
              incChannelcount_userId st.users, hfu]
            rfl
        | some ch =>
          simp only
          split
          · exact Or.inl ⟨by simp, rfl⟩
          · split
            · exact Or.inl ⟨by simp, rfl⟩
            · split
              · exact Or.inl ⟨by simp, rfl⟩
              · split
                · exact Or.inl ⟨by simp, rfl⟩
                · rename_i hnm
                  refine Or.inr ⟨rfl, ?_, ?_, ?_⟩
                  · intro uid' hne
                    constructor
                    · simp only
                      have hcm := countMember_updateChannel name
                        (fun c => addMemberToChannel c
                          ⟨uid, CHANNEL_USER_MODE_NONE⟩) uid'
                        st.channels ch hgc
                      have hd : (decide (uid = uid')) = false := by
                        simp only [decide_eq_false_iff_not]
                        exact fun h => hne h.symm
                      have hmm : memberOf
                          (addMemberToChannel ch
                            ⟨uid, CHANNEL_USER_MODE_NONE⟩) uid'
                          = memberOf ch uid' := by
                        rw [memberOf_add, hd, Bool.false_or]
                      simp only at hcm
                      rw [hmm] at hcm
                      omega
                    · exact find_user_updateUser_other uid uid' incChannelcount
                        incChannelcount_userId hne st.users
                  · simp only
                    have hcm := countMember_updateChannel name
                      (fun c => addMemberToChannel c
                        ⟨uid, CHANNEL_USER_MODE_NONE⟩) uid
                      st.channels ch hgc
                    have h1 : memberOf
                        (addMemberToChannel ch ⟨uid, CHANNEL_USER_MODE_NONE⟩)
                        uid = true := by
                      rw [memberOf_add]
                      simp
                    have h2 : memberOf ch uid = false :=
                      Bool.eq_false_iff.mpr hnm
                    simp only at hcm
                    rw [h1, h2] at hcm
                    simp at hcm
                    omega
                  · refine ⟨user, rfl, ?_⟩
                    rw [find_user_updateUser_self uid incChannelcount
                      incChannelcount_userId st.users, hfu]
                    rfl

theorem removeMemberFromChannel_not_member (ch : IrcChannel) (uid : Nat)
    (h : memberOf ch uid = false) : removeMemberFromChannel ch uid = ch := by
  unfold removeMemberFromChannel
  rw [if_neg (by simp [h])]

/-- Count effect of a part: failures (unknown channel, not a member)
leave the state untouched; a success decrements the parting user's
actual membership count and `channelcount`, and nobody else's. -/
theorem leave_channel_counts (st : IrcState) (uid : Nat) (name : String)
    (hinv : ∀ ch ∈ st.channels, chanInv ch) :
    ((leave_channel st uid name).2 ≠ 0 ∧ (leave_channel st uid name).1 = st)
      ∨
    ((leave_channel st uid name).2 = 0 ∧
     (∀ uid', uid' ≠ uid →
        countMember (leave_channel st uid name).1.channels uid'
          = countMember st.channels uid' ∧
        find_user (leave_channel st uid name).1.users uid'
          = find_user st.users uid') ∧
     countMember (leave_channel st uid name).1.channels uid + 1
        = countMember st.channels uid ∧
     find_user (leave_channel st uid name).1.users uid
        = (find_user st.users uid).map (decChannelcount 1)) := by
  unfold leave_channel
  cases hgc : get_channel st.channels name with
  | none => exact Or.inl ⟨by simp, rfl⟩
  | some ch =>
    simp only
    by_cases hmem : memberOf ch uid = true
    · have hinvch := hinv ch (get_channel_mem st.channels name ch hgc).1
      have hself : memberOf (removeMemberFromChannel ch uid) uid = false :=
        memberOf_remove_self ch uid hinvch.2.2
      refine Or.inr ⟨by rw [if_pos hmem], ?_, ?_, ?_⟩
      · intro uid' hne
        have hoth : memberOf (removeMemberFromChannel ch uid) uid'
            = memberOf ch uid' := memberOf_remove_other ch uid uid' hne
        constructor
        · split
          · rename_i hemp
            have hempty : (removeMemberFromChannel ch uid).members = [] := by
              simpa using hemp
            have hf : memberOf ch uid' = false := by
              rw [← hoth]
              unfold memberOf
              rw [hempty]
              rfl
            have hcm := countMember_removeChannel name uid' st.channels ch hgc
            rw [hf] at hcm
            simp at hcm
            omega
          · have hcm := countMember_updateChannel name
              (fun _ => removeMemberFromChannel ch uid) uid' st.channels ch hgc
            simp only at hcm
            rw [hoth] at hcm
            omega
        · rw [if_pos hmem]
          exact find_user_updateUser_other uid uid' (decChannelcount 1)
            (decChannelcount_userId 1) hne st.users
      · split
        · have hcm := countMember_removeChannel name uid st.channels ch hgc
          rw [hmem] at hcm
          simp at hcm
          omega
        · have hcm := countMember_updateChannel name
            (fun _ => removeMemberFromChannel ch uid) uid st.channels ch hgc
          simp only at hcm
          rw [hself, hmem] at hcm
          simp at hcm
          omega
      · rw [if_pos hmem]
        exact find_user_updateUser_self uid (decChannelcount 1)
          (decChannelcount_userId 1) st.users
    · -- not a member: the state is rebuilt unchanged
      refine Or.inl ⟨?_, ?_⟩
      · show (if memberOf ch uid = true then 0 else 442) ≠ 0
        rw [if_neg hmem]
        decide
      have hfb : memberOf ch uid = false := Bool.eq_false_iff.mpr hmem
      have hnop : removeMemberFromChannel ch uid = ch :=
        removeMemberFromChannel_not_member ch uid hfb
      have hinvch := hinv ch (get_channel_mem st.channels name ch hgc).1
      have hne : (removeMemberFromChannel ch uid).members.isEmpty = false := by
        rw [hnop]
        cases hm : ch.members with
        | nil => exact absurd hm hinvch.2.1
        | cons a l => rfl
      rw [if_neg hmem, if_neg (by rw [hne]; exact Bool.false_ne_true), hnop,
        updateChannel_self name st.channels ch hgc]

/-- Count effect of a kick: failures leave the state untouched; a
success removes the kicked user's membership without touching the
users list (so no `channelcount` changes), and affects nobody else's
membership count. -/
theorem kick_handler_counts (st : IrcState) (kicker kicked : Nat)
    (name : String) (hinv : ∀ ch ∈ st.channels, chanInv ch) :
    ((kick_handler st kicker kicked name).2 ≠ 0 ∧
      (kick_handler st kicker kicked name).1 = st) ∨
    ((kick_handler st kicker kicked name).2 = 0 ∧
     (kick_handler st kicker kicked name).1.users = st.users ∧
     countMember (kick_handler st kicker kicked name).1.channels kicked + 1
        = countMember st.channels kicked ∧
     (∀ uid', uid' ≠ kicked →
        countMember (kick_handler st kicker kicked name).1.channels uid'
          = countMember st.channels uid')) := by
  unfold kick_handler
  cases hgc : get_channel st.channels name with
  | none => exact Or.inl ⟨by simp, rfl⟩
  | some ch =>
    simp only
    cases hm1 : get_member ch kicker with
    | none => exact Or.inl ⟨by simp, rfl⟩
    | some km =>
      simp only
      split
      · exact Or.inl ⟨by simp, rfl⟩
      · cases hm2 : get_member ch kicked with
        | none => exact Or.inl ⟨by simp, rfl⟩
        | some m2 =>
          simp only
          have hmem : memberOf ch kicked = true := by
            rw [← get_member_isSome, hm2]
            rfl
          have hinvch := hinv ch (get_channel_mem st.channels name ch hgc).1
          have hself := memberOf_remove_self ch kicked hinvch.2.2
          refine Or.inr ⟨by trivial, by trivial, ?_, ?_⟩
          · split
            · have hcm := countMember_removeChannel name kicked st.channels
                ch hgc
              rw [hmem] at hcm
              simp at hcm
              omega
            · have hcm := countMember_updateChannel name
                (fun _ => removeMemberFromChannel ch kicked) kicked
                st.channels ch hgc
              simp only at hcm
              rw [hself, hmem] at hcm
              simp at hcm
              omega
          · intro uid' hne
            have hoth := memberOf_remove_other ch kicked uid' hne
            split
            · rename_i hemp
              have hempty : (removeMemberFromChannel ch kicked).members
                  = [] := by
                simpa using hemp
              have hf : memberOf ch uid' = false := by
                rw [← hoth]
                unfold memberOf
                rw [hempty]
                rfl
              have hcm := countMember_removeChannel name uid' st.channels
                ch hgc
              rw [hf] at hcm
              simp at hcm
              omega
            · have hcm := countMember_updateChannel name
                (fun _ => removeMemberFromChannel ch kicked) uid'
                st.channels ch hgc
              simp only at hcm
              rw [hoth] at hcm
              omega

theorem leave_all_go_count (uid : Nat) :
    ∀ l : List IrcChannel, (leave_all_go l uid).2 = countMember l uid := by
  intro l
  induction l with
  | nil => rfl
  | cons c rest ih =>
    rw [leave_all_go]
    dsimp only
    rw [countMember_cons, ih]
    omega

theorem leave_all_go_self (uid : Nat) :
    ∀ l : List IrcChannel, (∀ c ∈ l, chanInv c) →
      countMember (leave_all_go l uid).1 uid = 0 := by
  intro l
  induction l with
  | nil => intro _; rfl
  | cons c rest ih =>
    intro hinv
    have hc := hinv c (List.mem_cons_self c rest)
    have hrest : ∀ c' ∈ rest, chanInv c' :=
      fun c' h => hinv c' (List.mem_cons.mpr (Or.inr h))
    rw [leave_all_go]
    dsimp only
    split
    · exact ih hrest
    · by_cases hmem : memberOf c uid = true
      · have h1 := memberOf_remove_self c uid hc.2.2
        rw [countMember_cons, h1, ih hrest]
        simp
      · have hfb : memberOf c uid = false := Bool.eq_false_iff.mpr hmem
        have h1 : memberOf (removeMemberFromChannel c uid) uid = false := by
          rw [removeMemberFromChannel_not_member c uid hfb]
          exact hfb
        rw [countMember_cons, h1, ih hrest]
        simp

theorem leave_all_go_other (uid uid' : Nat) (hne : uid' ≠ uid) :
    ∀ l : List IrcChannel, (∀ c ∈ l, chanInv c) →
      countMember (leave_all_go l uid).1 uid' = countMember l uid' := by
  intro l
  induction l with
  | nil => intro _; rfl
  | cons c rest ih =>
    intro hinv
    have hrest : ∀ c' ∈ rest, chanInv c' :=
      fun c' h => hinv c' (List.mem_cons.mpr (Or.inr h))
    have hoth : memberOf (removeMemberFromChannel c uid) uid'
        = memberOf c uid' := memberOf_remove_other c uid uid' hne
    rw [leave_all_go]
    dsimp only
    split
    · rename_i hemp
      have hempty : (removeMemberFromChannel c uid).members = [] := by
        simpa using hemp
      have hf : memberOf c uid' = false := by
        rw [← hoth]
        unfold memberOf
        rw [hempty]
        rfl
      rw [countMember_cons, hf, ih hrest]
      simp
    · rw [countMember_cons, countMember_cons, hoth, ih hrest]

/-- Count effect of a quit: the quitting user is removed from every
channel and their `channelcount` is decremented once per removed
membership; nobody else's counts change. -/
theorem leave_all_channels_counts (st : IrcState) (uid : Nat)
    (hinv : ∀ ch ∈ st.channels, chanInv ch) :
    countMember (leave_all_channels st uid).channels uid = 0 ∧
    (∀ uid', uid' ≠ uid →
      countMember (leave_all_channels st uid).channels uid'
        = countMember st.channels uid' ∧
      find_user (leave_all_channels st uid).users uid'
        = find_user st.users uid') ∧
    find_user (leave_all_channels st uid).users uid
      = (find_user st.users uid).map
          (decChannelcount (countMember st.channels uid)) := by
  refine ⟨leave_all_go_self uid st.channels hinv, ?_, ?_⟩
  · intro uid' hne
    exact ⟨leave_all_go_other uid uid' hne st.channels hinv,
      find_user_updateUser_other uid uid' _
        (decChannelcount_userId _) hne st.users⟩
  · unfold leave_all_channels
    dsimp only
    rw [leave_all_go_count uid st.channels]
    exact find_user_updateUser_self uid _ (decChannelcount_userId _) st.users

theorem applyIrcOp_inv (st : IrcState) (op : IrcOp)
    (hinv : ∀ ch ∈ st.channels, chanInv ch) :
    ∀ x ∈ (applyIrcOp st op).channels, chanInv x := by
  cases op with
  | join uid name => exact join_channel_inv st uid name hinv
  | part uid name => exact leave_channel_inv st uid name hinv
  | quit uid => exact leave_all_channels_inv st uid hinv
  | kick kicker kicked name => exact kick_handler_inv st kicker kicked name hinv

theorem storedCount_eq_of_find (st : IrcState) (uid : Nat) (u : IrcUser)
    (h : find_user st.users uid = some u) :
    storedCount st uid = u.channelcount := by
  unfold storedCount
  rw [h]

theorem storedCount_eq_of_find_none (st : IrcState) (uid : Nat)
    (h : find_user st.users uid = none) : storedCount st uid = 0 := by
  unfold storedCount
  rw [h]

theorem storedCount_congr (st' st : IrcState) (uid : Nat)
    (h : find_user st'.users uid = find_user st.users uid) :
    storedCount st' uid = storedCount st uid := by
  unfold storedCount
  rw [h]

/-- The count invariant `actual ≤ stored` is preserved by every
operation, and so is the channel invariant. -/
theorem applyIrcOp_good (st : IrcState) (op : IrcOp) (h : GoodState st) :
    GoodState (applyIrcOp st op) := by
  refine ⟨fun x hx => applyIrcOp_inv st op h.1 x hx, ?_⟩
  intro uid0
  cases op with
  | join uid name =>
    show countMember (join_channel st uid name).1.channels uid0
      ≤ storedCount (join_channel st uid name).1 uid0
    rcases join_channel_counts st uid name with ⟨_, heq⟩ |
      ⟨_, hother, hself, u, hu, hu'⟩
    · rw [heq]
      exact h.2 uid0
    · by_cases he : uid0 = uid
      · subst he
        have hle : countMember st.channels uid0 ≤ u.channelcount := by
          have h1 : actualCount st uid0 ≤ storedCount st uid0 := h.2 uid0
          rw [storedCount_eq_of_find st uid0 u hu] at h1
          exact h1
        have e2 : storedCount (join_channel st uid0 name).1 uid0
            = u.channelcount + 1 := by
          rw [storedCount_eq_of_find _ uid0 (incChannelcount u) hu']
          rfl
        rw [hself, e2]
        exact Nat.add_le_add_right hle 1
      · obtain ⟨hc, hf⟩ := hother uid0 he
        rw [hc, storedCount_congr _ st uid0 hf]
        exact h.2 uid0
  | part uid name =>
    show countMember (leave_channel st uid name).1.channels uid0
      ≤ storedCount (leave_channel st uid name).1 uid0
    rcases leave_channel_counts st uid name h.1 with ⟨_, heq⟩ |
      ⟨_, hother, hself, hmap⟩
    · rw [heq]
      exact h.2 uid0
    · by_cases he : uid0 = uid
      · subst he
        cases hfu : find_user st.users uid0 with
        | none =>
          have h0 : countMember st.channels uid0 ≤ 0 := by
            have h1 : actualCount st uid0 ≤ storedCount st uid0 := h.2 uid0
            rw [storedCount_eq_of_find_none st uid0 hfu] at h1
            exact h1
          omega
        | some u =>
          have hle : countMember st.channels uid0 ≤ u.channelcount := by
            have h1 : actualCount st uid0 ≤ storedCount st uid0 := h.2 uid0
            rw [storedCount_eq_of_find st uid0 u hfu] at h1
            exact h1
          have e2 : storedCount (leave_channel st uid0 name).1 uid0
              = u.channelcount - 1 := by
            rw [storedCount_eq_of_find _ uid0 (decChannelcount 1 u)
              (by rw [hmap, hfu]; rfl)]
            rfl
          rw [e2]
          omega
      · obtain ⟨hc, hf⟩ := hother uid0 he
        rw [hc, storedCount_congr _ st uid0 hf]
        exact h.2 uid0
  | quit uid =>
    obtain ⟨hselfq, hotherq, hmapq⟩ := leave_all_channels_counts st uid h.1
    show countMember (leave_all_channels st uid).channels uid0
      ≤ storedCount (leave_all_channels st uid) uid0
    by_cases he : uid0 = uid
    · subst he
      rw [hselfq]
      exact Nat.zero_le _
    · obtain ⟨hc, hf⟩ := hotherq uid0 he
      rw [hc, storedCount_congr _ st uid0 hf]
      exact h.2 uid0
  | kick k kd name =>
    show countMember (kick_handler st k kd name).1.channels uid0
      ≤ storedCount (kick_handler st k kd name).1 uid0
    rcases kick_handler_counts st k kd name h.1 with ⟨_, heq⟩ |
      ⟨_, husers, hself, hother⟩
    · rw [heq]
      exact h.2 uid0
    · have hst : storedCount (kick_handler st k kd name).1 uid0
          = storedCount st uid0 :=
        storedCount_congr _ st uid0 (by rw [husers])
      rw [hst]
      by_cases he : uid0 = kd
      · subst he
        have h1 : actualCount st uid0 ≤ storedCount st uid0 := h.2 uid0
        have h1' : countMember st.channels uid0 ≤ storedCount st uid0 := h1
        omega
      · rw [hother uid0 he]
        exact h.2 uid0

/-- Strict deficit preservation: once a user's stored `channelcount`
strictly exceeds their actual membership count, every further
operation keeps it strictly larger. -/
theorem applyIrcOp_strict (st : IrcState) (op : IrcOp) (h : GoodState st)
    (uid0 : Nat) (hlt : actualCount st uid0 < storedCount st uid0) :
    actualCount (applyIrcOp st op) uid0
      < storedCount (applyIrcOp st op) uid0 := by
  have hlt' : countMember st.channels uid0 < storedCount st uid0 := hlt
  cases op with
  | join uid name =>
    show countMember (join_channel st uid name).1.channels uid0
      < storedCount (join_channel st uid name).1 uid0
    rcases join_channel_counts st uid name with ⟨_, heq⟩ |
      ⟨_, hother, hself, u, hu, hu'⟩
    · rw [heq]
      exact hlt'
    · by_cases he : uid0 = uid
      · subst he
        have e1 : storedCount st uid0 = u.channelcount :=
          storedCount_eq_of_find st uid0 u hu
        have e2 : storedCount (join_channel st uid0 name).1 uid0
            = u.channelcount + 1 := by
          rw [storedCount_eq_of_find _ uid0 (incChannelcount u) hu']
          rfl
        rw [hself, e2]
        omega
      · obtain ⟨hc, hf⟩ := hother uid0 he
        rw [hc, storedCount_congr _ st uid0 hf]
        exact hlt'
  | part uid name =>
    show countMember (leave_channel st uid name).1.channels uid0
      < storedCount (leave_channel st uid name).1 uid0
    rcases leave_channel_counts st uid name h.1 with ⟨_, heq⟩ |
      ⟨_, hother, hself, hmap⟩
    · rw [heq]
      exact hlt'
    · by_cases he : uid0 = uid
      · subst he
        cases hfu : find_user st.users uid0 with
        | none =>
          rw [storedCount_eq_of_find_none st uid0 hfu] at hlt'
          omega
        | some u =>
          have e1 : storedCount st uid0 = u.channelcount :=
            storedCount_eq_of_find st uid0 u hfu
          have e2 : storedCount (leave_channel st uid0 name).1 uid0
              = u.channelcount - 1 := by
            rw [storedCount_eq_of_find _ uid0 (decChannelcount 1 u)
              (by rw [hmap, hfu]; rfl)]
            rfl
          rw [e2]
          omega
      · obtain ⟨hc, hf⟩ := hother uid0 he
        rw [hc, storedCount_congr _ st uid0 hf]
        exact hlt'
  | quit uid =>
    obtain ⟨hselfq, hotherq, hmapq⟩ := leave_all_channels_counts st uid h.1
    show countMember (leave_all_channels st uid).channels uid0
      < storedCount (leave_all_channels st uid) uid0
    by_cases he : uid0 = uid
    · subst he
      rw [hselfq]
      cases hfu : find_user st.users uid0 with
      | none =>
        rw [storedCount_eq_of_find_none st uid0 hfu] at hlt'
        omega
      | some u =>
        have e1 : storedCount st uid0 = u.channelcount :=
          storedCount_eq_of_find st uid0 u hfu
        have e2 : storedCount (leave_all_channels st uid0) uid0
            = u.channelcount - countMember st.channels uid0 := by
          rw [storedCount_eq_of_find _ uid0
            (decChannelcount (countMember st.channels uid0) u)
            (by rw [hmapq, hfu]; rfl)]
          rfl
        rw [e2]
        omega
    · obtain ⟨hc, hf⟩ := hotherq uid0 he
      rw [hc, storedCount_congr _ st uid0 hf]
      exact hlt'
  | kick k kd name =>
    show countMember (kick_handler st k kd name).1.channels uid0
      < storedCount (kick_handler st k kd name).1 uid0
    rcases kick_handler_counts st k kd name h.1 with ⟨_, heq⟩ |
      ⟨_, husers, hself, hother⟩
    · rw [heq]
      exact hlt'
    · have hst : storedCount (kick_handler st k kd name).1 uid0
          = storedCount st uid0 :=
        storedCount_congr _ st uid0 (by rw [husers])
      rw [hst]
      by_cases he : uid0 = kd
      · subst he
        omega
      · rw [hother uid0 he]
        exact hlt'

theorem runIrc_good (ops : List IrcOp) :
    ∀ st : IrcState, GoodState st → GoodState (runIrc ops st) := by
  induction ops with
  | nil => intro st h; exact h
  | cons op rest ih =>
    intro st h
    rw [runIrc, List.foldl_cons]
    exact ih (applyIrcOp st op) (applyIrcOp_good st op h)

theorem runIrc_strict (ops : List IrcOp) :
    ∀ (st : IrcState) (uid0 : Nat), GoodState st →
      actualCount st uid0 < storedCount st uid0 →
      actualCount (runIrc ops st) uid0 < storedCount (runIrc ops st) uid0 := by
  induction ops with
  | nil => intro st uid0 _ hlt; exact hlt
  | cons op rest ih =>
    intro st uid0 h hlt
    rw [runIrc, List.foldl_cons]
    exact ih (applyIrcOp st op) uid0 (applyIrcOp_good st op h)
      (applyIrcOp_strict st op h uid0 hlt)

theorem initIrc_good (users0 : List (Nat × String × Bool × Bool)) :
    GoodState (initIrc users0) := by
  constructor
  · intro ch hch
    cases hch
  · intro uid
    exact Nat.zero_le _

/-- C3: under atomic (sequential) semantics the invariant of the claim
does hold in every reachable state — each listed channel's denormalized
count equals its member-list length and no listed channel is empty —
but the locking part of the claim fails at the kick path: kicking the
last member of a channel removes the channel from the channels list
after the members lock is released and with the channels writer lock
never held (contradicting `remove_channel`'s documented precondition),
while part and quit do perform the removal under the channels writer
lock. -/
theorem kick_removes_channel_without_channels_lock :
    (∀ (users0 : List (Nat × String × Bool × Bool)) (ops : List IrcOp),
      ∀ ch ∈ (runIrc ops (initIrc users0)).channels,
        ch.membercount = ch.members.length ∧ ch.members ≠ []) ∧
    removesUnderWrLock (kick_handler_lock_trace true true) = false ∧
    LockEv.removeChannelEv ∈ kick_handler_lock_trace true true ∧
    removesUnderWrLock (leave_channel_lock_trace true true true) = true ∧
    removesUnderWrLock (leave_all_channels_lock_trace [(true, true)])
      = true := by
  refine ⟨?_, by decide, by decide, by decide, by decide⟩
  intro users0 ops ch hch
  have hg := runIrc_good ops (initIrc users0) (initIrc_good users0)
  exact ⟨(hg.1 ch hch).1, (hg.1 ch hch).2.1⟩

/-- Witness for C3's invariant part at a concrete reachable state: the
channel created by user 1 joining `#c` satisfies the count and
non-emptiness invariant. -/
theorem kick_removes_channel_without_channels_lock_witness :
    ((⟨"#c", CHANNEL_MODE_NO_EXTERNAL ||| CHANNEL_MODE_TOPIC_PROTECTED |||
        CHANNEL_MODE_REGISTERED_ONLY, 0, 1,
        [⟨1, CHANNEL_USER_MODE_OP ||| CHANNEL_USER_MODE_FOUNDER⟩]⟩ :
          IrcChannel).membercount
        = (⟨"#c", CHANNEL_MODE_NO_EXTERNAL ||| CHANNEL_MODE_TOPIC_PROTECTED
            ||| CHANNEL_MODE_REGISTERED_ONLY, 0, 1,
            [⟨1, CHANNEL_USER_MODE_OP ||| CHANNEL_USER_MODE_FOUNDER⟩]⟩ :
              IrcChannel).members.length ∧
      (⟨"#c", CHANNEL_MODE_NO_EXTERNAL ||| CHANNEL_MODE_TOPIC_PROTECTED |||
        CHANNEL_MODE_REGISTERED_ONLY, 0, 1,
        [⟨1, CHANNEL_USER_MODE_OP ||| CHANNEL_USER_MODE_FOUNDER⟩]⟩ :
          IrcChannel).members ≠ []) ∧
    removesUnderWrLock (kick_handler_lock_trace true true) = false :=
  ⟨kick_removes_channel_without_channels_lock.1
      [(1, "alice", true, true)] [IrcOp.join 1 "#c"]
      ⟨"#c", CHANNEL_MODE_NO_EXTERNAL ||| CHANNEL_MODE_TOPIC_PROTECTED |||
        CHANNEL_MODE_REGISTERED_ONLY, 0, 1,
        [⟨1, CHANNEL_USER_MODE_OP ||| CHANNEL_USER_MODE_FOUNDER⟩]⟩
      (by decide),
   kick_removes_channel_without_channels_lock.2.1⟩

/-- C10: in any reachable state, a successful kick removes the kicked
user's membership but leaves their stored `channelcount` unchanged;
from then on the stored count permanently exceeds the number of
channels the user is actually in, whatever operations follow.  By
contrast a successful part decrements both counters by one and a quit
zeroes the real membership while decrementing `channelcount` once per
removed membership.  The join cap check compares exactly this stored
`channelcount` against MAX_CHANNELS. -/
theorem kick_inflates_channelcount
    (users0 : List (Nat × String × Bool × Bool)) (ops1 ops2 : List IrcOp)
    (k kd : Nat) (name : String)
    (hsucc : (kick_handler (runIrc ops1 (initIrc users0)) k kd name).2 = 0) :
    storedCount (kick_handler (runIrc ops1 (initIrc users0)) k kd name).1 kd
      = storedCount (runIrc ops1 (initIrc users0)) kd ∧
    actualCount (kick_handler (runIrc ops1 (initIrc users0)) k kd name).1 kd
        + 1
      = actualCount (runIrc ops1 (initIrc users0)) kd ∧
    actualCount
        (runIrc ops2
          (kick_handler (runIrc ops1 (initIrc users0)) k kd name).1) kd
      < storedCount
          (runIrc ops2
            (kick_handler (runIrc ops1 (initIrc users0)) k kd name).1) kd ∧
    (∀ (st3 : IrcState) (uid : Nat) (nm : String), GoodState st3 →
      (leave_channel st3 uid nm).2 = 0 →
      storedCount (leave_channel st3 uid nm).1 uid + 1
          = storedCount st3 uid ∧
      actualCount (leave_channel st3 uid nm).1 uid + 1
          = actualCount st3 uid) ∧
    (∀ (st4 : IrcState) (uid : Nat), GoodState st4 →
      actualCount (leave_all_channels st4 uid) uid = 0 ∧
      storedCount (leave_all_channels st4 uid) uid + actualCount st4 uid
          = storedCount st4 uid) ∧
    (∀ (st2 : IrcState) (uid : Nat) (nm : String) (u : IrcUser),
      find_user st2.users uid = some u →
      VALID_CHANNEL_NAME nm = true → ¬(MAX_CHANNEL_LENGTH < nm.length) →
      valid_channame nm = true → MAX_CHANNELS < u.channelcount →
      join_channel st2 uid nm = (st2, 405)) := by
  have hg : GoodState (runIrc ops1 (initIrc users0)) :=
    runIrc_good ops1 (initIrc users0) (initIrc_good users0)
  rcases kick_handler_counts (runIrc ops1 (initIrc users0)) k kd name hg.1
    with ⟨hne, _⟩ | ⟨_, husers, hself, hother⟩
  · exact absurd hsucc hne
  · have hstored : storedCount
        (kick_handler (runIrc ops1 (initIrc users0)) k kd name).1 kd
        = storedCount (runIrc ops1 (initIrc users0)) kd :=
      storedCount_congr _ _ kd (by rw [husers])
    have hactual : actualCount
        (kick_handler (runIrc ops1 (initIrc users0)) k kd name).1 kd + 1
        = actualCount (runIrc ops1 (initIrc users0)) kd := hself
    have hg1 : GoodState
        (kick_handler (runIrc ops1 (initIrc users0)) k kd name).1 :=
      applyIrcOp_good (runIrc ops1 (initIrc users0)) (IrcOp.kick k kd name) hg
    have hstrict : actualCount
        (kick_handler (runIrc ops1 (initIrc users0)) k kd name).1 kd
        < storedCount
            (kick_handler (runIrc ops1 (initIrc users0)) k kd name).1 kd := by
      have hle : actualCount (runIrc ops1 (initIrc users0)) kd
          ≤ storedCount (runIrc ops1 (initIrc users0)) kd := hg.2 kd
      omega
    refine ⟨hstored, hactual,
      runIrc_strict ops2 _ kd hg1 hstrict, ?_, ?_, ?_⟩
    · intro st3 uid nm hg3 hpart
      rcases leave_channel_counts st3 uid nm hg3.1
        with ⟨hne3, _⟩ | ⟨_, _, hself3, hmap3⟩
      · exact absurd hpart hne3
      · refine ⟨?_, hself3⟩
        cases hfu : find_user st3.users uid with
        | none =>
          have h0 : actualCount st3 uid ≤ storedCount st3 uid := hg3.2 uid
          rw [storedCount_eq_of_find_none st3 uid hfu] at h0
          have h0' : countMember st3.channels uid ≤ 0 := h0
          omega
        | some u =>
          have hle : countMember st3.channels uid ≤ u.channelcount := by
            have h1 : actualCount st3 uid ≤ storedCount st3 uid := hg3.2 uid
            rw [storedCount_eq_of_find st3 uid u hfu] at h1
            exact h1
          have e1 : storedCount st3 uid = u.channelcount :=
            storedCount_eq_of_find st3 uid u hfu
          have e2 : storedCount (leave_channel st3 uid nm).1 uid
              = u.channelcount - 1 := by
            rw [storedCount_eq_of_find _ uid (decChannelcount 1 u)
              (by rw [hmap3, hfu]; rfl)]
            rfl
          rw [e1, e2]
          omega
    · intro st4 uid hg4
      obtain ⟨hselfq, _, hmapq⟩ := leave_all_channels_counts st4 uid hg4.1
      refine ⟨hselfq, ?_⟩
      cases hfu : find_user st4.users uid with
      | none =>
        have h0 : actualCount st4 uid ≤ storedCount st4 uid := hg4.2 uid
        rw [storedCount_eq_of_find_none st4 uid hfu] at h0
        have e2 : storedCount (leave_all_channels st4 uid) uid = 0 := by
          rw [storedCount_eq_of_find_none _ uid (by rw [hmapq, hfu]; rfl)]
        rw [e2, storedCount_eq_of_find_none st4 uid hfu]
        have h0' : countMember st4.channels uid ≤ 0 := h0
        have ha : actualCount st4 uid = 0 := Nat.le_zero.mp h0
        rw [ha]
      | some u =>
        have hle : countMember st4.channels uid ≤ u.channelcount := by
          have h1 : actualCount st4 uid ≤ storedCount st4 uid := hg4.2 uid
          rw [storedCount_eq_of_find st4 uid u hfu] at h1
          exact h1
        have e1 : storedCount st4 uid = u.channelcount :=
          storedCount_eq_of_find st4 uid u hfu
        have e2 : storedCount (leave_all_channels st4 uid) uid
            = u.channelcount - countMember st4.channels uid := by
          rw [storedCount_eq_of_find _ uid
            (decChannelcount (countMember st4.channels uid) u)
            (by rw [hmapq, hfu]; rfl)]
          rfl
        rw [e1, e2]
        have : actualCount st4 uid = countMember st4.channels uid := rfl
        rw [this]
        omega
    · intro st2 uid nm u hfu hvalid hlen hvalname hcap
      have hcond : ¬(VALID_CHANNEL_NAME nm = false ∨
          MAX_CHANNEL_LENGTH < nm.length ∨ valid_channame nm = false) := by
        rintro (h1 | h2 | h3)
        · rw [hvalid] at h1
          exact absurd h1 (by decide)
        · exact hlen h2
        · rw [hvalname] at h3
          exact absurd h3 (by decide)
      unfold join_channel
      simp only [hfu]
      rw [if_neg hcond, if_pos hcap]

/-- Witness for C10: users 1 and 2 join `#c`, user 1 (an op) kicks
user 2; user 2's stored `channelcount` stays 1 while they are in 0
channels, and the deficit persists; a part and a quit decrement both
counters; a user whose stored count is 51 is refused a join with
numeric 405. -/
theorem kick_inflates_channelcount_witness :
    storedCount (kick_handler (runIrc [IrcOp.join 1 "#c", IrcOp.join 2 "#c"]
        (initIrc [(1, "alice", true, true), (2, "bob", true, true)]))
        1 2 "#c").1 2
      = storedCount (runIrc [IrcOp.join 1 "#c", IrcOp.join 2 "#c"]
          (initIrc [(1, "alice", true, true), (2, "bob", true, true)])) 2 ∧
    actualCount (kick_handler (runIrc [IrcOp.join 1 "#c", IrcOp.join 2 "#c"]
        (initIrc [(1, "alice", true, true), (2, "bob", true, true)]))
        1 2 "#c").1 2 + 1
      = actualCount (runIrc [IrcOp.join 1 "#c", IrcOp.join 2 "#c"]
          (initIrc [(1, "alice", true, true), (2, "bob", true, true)])) 2 ∧
    actualCount (runIrc []
        (kick_handler (runIrc [IrcOp.join 1 "#c", IrcOp.join 2 "#c"]
          (initIrc [(1, "alice", true, true), (2, "bob", true, true)]))
          1 2 "#c").1) 2
      < storedCount (runIrc []
          (kick_handler (runIrc [IrcOp.join 1 "#c", IrcOp.join 2 "#c"]
            (initIrc [(1, "alice", true, true), (2, "bob", true, true)]))
            1 2 "#c").1) 2 ∧
    (storedCount (leave_channel (runIrc [IrcOp.join 1 "#c", IrcOp.join 2 "#c"]
          (initIrc [(1, "alice", true, true), (2, "bob", true, true)]))
          1 "#c").1 1 + 1
        = storedCount (runIrc [IrcOp.join 1 "#c", IrcOp.join 2 "#c"]
            (initIrc [(1, "alice", true, true), (2, "bob", true, true)])) 1 ∧
      actualCount (leave_channel (runIrc [IrcOp.join 1 "#c", IrcOp.join 2 "#c"]
          (initIrc [(1, "alice", true, true), (2, "bob", true, true)]))
          1 "#c").1 1 + 1
        = actualCount (runIrc [IrcOp.join 1 "#c", IrcOp.join 2 "#c"]
            (initIrc [(1, "alice", true, true), (2, "bob", true, true)])) 1) ∧
    (actualCount (leave_all_channels
          (runIrc [IrcOp.join 1 "#c", IrcOp.join 2 "#c"]
            (initIrc [(1, "alice", true, true), (2, "bob", true, true)]))
          2) 2 = 0 ∧
      storedCount (leave_all_channels
            (runIrc [IrcOp.join 1 "#c", IrcOp.join 2 "#c"]
              (initIrc [(1, "alice", true, true), (2, "bob", true, true)]))
            2) 2
          + actualCount (runIrc [IrcOp.join 1 "#c", IrcOp.join 2 "#c"]
              (initIrc [(1, "alice", true, true), (2, "bob", true, true)])) 2
        = storedCount (runIrc [IrcOp.join 1 "#c", IrcOp.join 2 "#c"]
            (initIrc [(1, "alice", true, true), (2, "bob", true, true)])) 2) ∧
    join_channel ⟨[⟨2, "bob", true, true, false, 51⟩], []⟩ 2 "#x"
      = (⟨[⟨2, "bob", true, true, false, 51⟩], []⟩, 405) := by
  have h := kick_inflates_channelcount
    [(1, "alice", true, true), (2, "bob", true, true)]
    [IrcOp.join 1 "#c", IrcOp.join 2 "#c"] [] 1 2 "#c" (by decide)
  exact ⟨h.1, h.2.1, h.2.2.1,
    h.2.2.2.1 (runIrc [IrcOp.join 1 "#c", IrcOp.join 2 "#c"]
        (initIrc [(1, "alice", true, true), (2, "bob", true, true)]))
      1 "#c"
      (runIrc_good [IrcOp.join 1 "#c", IrcOp.join 2 "#c"]
        (initIrc [(1, "alice", true, true), (2, "bob", true, true)])
        (initIrc_good [(1, "alice", true, true), (2, "bob", true, true)]))
      (by decide),
    h.2.2.2.2.1 (runIrc [IrcOp.join 1 "#c", IrcOp.join 2 "#c"]
        (initIrc [(1, "alice", true, true), (2, "bob", true, true)])) 2
      (runIrc_good [IrcOp.join 1 "#c", IrcOp.join 2 "#c"]
        (initIrc [(1, "alice", true, true), (2, "bob", true, true)])
        (initIrc_good [(1, "alice", true, true), (2, "bob", true, true)])),
    h.2.2.2.2.2 ⟨[⟨2, "bob", true, true, false, 51⟩], []⟩ 2 "#x"
      ⟨2, "bob", true, true, false, 51⟩ (by decide) (by decide) (by decide)
      (by decide) (by decide)⟩

end LBBS
